import Mathlib

/-!
# clccam: box import and retry policy

A shallow embedding of `importBox` (camsole/cmd/boxes.go) and of the retry
predicate installed by `Retryer` (options.go).

`importBox` talks to the local file system and to the catalog service.  Both
are taken as parameters (`Env`); every call the function makes is appended to
a trace, together with its outcome, so that statements about which calls are
made, in which order and with which arguments are statements about that trace.
-/

namespace Clccam

/-! ## Data model -/

/-- File contents, as a sequence of byte values. -/
abbrev Bytes := List Nat

/-- A `uuid.UUID`: the 128-bit number spelled by its sixteen bytes. -/
abbrev UUID := Nat

/-- The value `uuid.Nil` (all bytes zero). -/
def uuidNil : UUID := 0

/-- The function `uuid.Equal`. -/
def uuidEqual (a b : UUID) : Bool := a == b

/-- One lower-case hexadecimal digit. -/
def hexDigit (n : Nat) : Char := "0123456789abcdef".data.getD n '0'

/-- Hexadecimal digits number `i`, `i+1`, ... (`k` of them) of a UUID, most
significant first, out of 32. -/
def uuidHex (u : UUID) : Nat → Nat → List Char
  | _, 0 => []
  | i, k + 1 => hexDigit (u / 16 ^ (31 - i) % 16) :: uuidHex u (i + 1) k

/-- The method `UUID.String`: the canonical 8-4-4-4-12 rendering. -/
def uuidString (u : UUID) : String :=
  String.mk (uuidHex u 0 8 ++ '-' :: uuidHex u 8 4 ++ '-' :: uuidHex u 12 4
    ++ '-' :: uuidHex u 16 4 ++ '-' :: uuidHex u 20 12)

/-- Modelled from the spec: the type `clccam.Uri` is declared outside the
files at hand.  It wraps a parsed URL; kept here are the parts of it that
`importBox` looks at (the path), the zero test and the string rendering. -/
structure Uri where
  Scheme : String
  Host : String
  Path : String
deriving DecidableEq

/-- Modelled from the spec: the method `Uri.IsZero` (declared outside the
files at hand): the value is the zero value of its type. -/
def Uri.IsZero (u : Uri) : Bool := u == ⟨"", "", ""⟩

/-- Modelled from the spec: the method `Uri.String` (declared outside the
files at hand), the rendering of the URL. -/
def Uri.String (u : Uri) : String :=
  if u.Scheme = "" ∧ u.Host = "" then u.Path else u.Scheme ++ "://" ++ u.Host ++ u.Path

/-- Modelled from the spec: the type `clccam.BlobResponse` (declared outside
the files at hand), the result of a file upload; `importBox` uses its `Url`. -/
structure BlobResponse where
  Url : Uri
  Length : Nat
deriving DecidableEq

/-- Modelled from the spec: the type `clccam.BoxVersion` (declared outside
the files at hand), the version object of a box; `importBox` uses `Box` and
`Description`. -/
structure BoxVersion where
  Box : UUID
  Description : String
  Number : Nat
deriving DecidableEq

/-- Modelled from the spec: the type `clccam.WorkSpaceMember` (declared
outside the files at hand), one entry of the members list. -/
structure WorkSpaceMember where
  Workspace : String
  Role : String
deriving DecidableEq

/-- Modelled from the spec: the type `clccam.Variable` with its embedded
`BasicVariable` (declared outside the files at hand): a name, a type tag and
a value. -/
structure Variable where
  Name : String
  Typ : String
  Value : String
deriving DecidableEq

/-- Modelled from the spec: the type `clccam.Visibility` (declared outside
the files at hand); `importBox` uses `Visibility_Public`. -/
inductive Visibility
  | Visibility_Workspace
  | Visibility_Organization
  | Visibility_Public
deriving DecidableEq

/-- Modelled from the spec: the type `clccam.BoxEvent` (declared outside the
files at hand), an enumeration of the lifecycle events. -/
abbrev BoxEvent := Nat

/-- Modelled from the spec: the type `clccam.Event` (declared outside the
files at hand); `importBox` fills its `BlobResponse`. -/
structure Event where
  BlobResponse : BlobResponse
deriving DecidableEq

/-- Modelled from the spec: the type of `Box.IconMetadata` (declared outside
the files at hand), the structured icon description; `importBox` uses `Image`. -/
structure IconMetadata where
  Image : Uri
  Fill : String
deriving DecidableEq

/-- A Go slice: `none` is the nil slice, `some l` a slice with elements `l`. -/
abbrev Slice (α : Type) := Option (List α)

/-- The builtin `len` on slices. -/
def Slice.len {α : Type} : Slice α → Nat
  | none => 0
  | some l => l.length

/-- The elements of a slice (none for the nil slice). -/
def Slice.elems {α : Type} : Slice α → List α
  | none => []
  | some l => l

/-- Modelled from the spec: the type `clccam.Box` (declared outside the files
at hand), restricted to the fields `importBox` reads or writes.  `Events` is a Go map, kept as an association list; `Variables` is a
slice that the code only walks and updates in place, kept as a list. -/
structure Box where
  ID : UUID
  Name : String
  Organization : String
  Owner : String
  Visibility : Visibility
  Schema : Uri
  Categories : Slice String
  Members : Slice WorkSpaceMember
  BoxVersion : Option BoxVersion
  Events : List (BoxEvent × Event)
  Variables : List Variable
  Icon : String
  IconMetadata : Option IconMetadata
  Readme : BlobResponse
  Created : Nat
deriving DecidableEq

/-! ## Helpers from the Go standard library -/

/-- The function `strings.HasPrefix`. -/
def stringsHasPrefix (s p : String) : Bool := p.data.isPrefixOf s.data

/-- Split a path at every slash. -/
def splitSlash : List Char → List (List Char)
  | [] => [[]]
  | c :: cs =>
    match splitSlash cs with
    | [] => [[c]]
    | w :: ws => if c = '/' then [] :: w :: ws else (c :: w) :: ws

/-- The component walk of `path.Clean`: `acc` holds the components written so
far, innermost first. -/
def cleanWalk (rooted : Bool) : List (List Char) → List (List Char) → List (List Char)
  | acc, [] => acc
  | acc, c :: cs =>
    if c = [] ∨ c = ['.'] then cleanWalk rooted acc cs
    else if c = ['.', '.'] then
      match acc with
      | top :: below =>
        if top = ['.', '.'] then cleanWalk rooted (c :: acc) cs
        else cleanWalk rooted below cs
      | [] => if rooted then cleanWalk rooted [] cs else cleanWalk rooted [c] cs
    else cleanWalk rooted (c :: acc) cs

/-- The function `path.Clean`. -/
def pathClean (p : String) : String :=
  if p = "" then "." else
    let rooted := p.data.head? = some '/'
    let body := List.intercalate ['/'] (cleanWalk rooted [] (splitSlash p.data)).reverse
    if rooted then String.mk ('/' :: body)
    else if body = [] then "." else String.mk body

/-- The function `path.Join`. -/
def pathJoin (elem : List String) : String :=
  match elem.dropWhile (fun e => e = "") with
  | [] => ""
  | rest => pathClean (String.mk (List.intercalate ['/'] (rest.map String.data)))

/-- The function `path.Base`. -/
def pathBase (p : String) : String :=
  if p = "" then "." else
    let stripped := (p.data.reverse.dropWhile (fun c => c = '/')).reverse
    match (splitSlash stripped).getLast? with
    | none => "/"
    | some last => if last = [] then "/" else String.mk last

/-! ## Calls, environment and the trace -/

/-- One call made by `importBox`, with its arguments and its outcome. -/
inductive Call
  /-- A call of `os.Stat`; `found` tells whether it returned without error. -/
  | stat (path : String) (found : Bool)
  /-- A call of `ioutil.ReadFile`; `content` is `none` on an error. -/
  | readFile (path : String) (content : Option Bytes)
  /-- A call of `client.GetBox`; `existing` is `none` on an error. -/
  | getBox (id : String) (existing : Option Box)
  /-- A call of `client.GetTokenSubject`. -/
  | getTokenSubject (user : Option String)
  /-- A call of `client.UploadFile`; `res` is `none` on an error. -/
  | uploadFile (name : String) (content : Bytes) (res : Option BlobResponse)
  /-- A call of `client.UploadBox`. -/
  | uploadBox (box : Box) (existingId : String) (res : Option Box)
  /-- A call of `client.UploadApplianceBox`. -/
  | uploadApplianceBox (box : Box) (existingId : String) (res : Option Box)
deriving DecidableEq

/-- The call is a submission (`UploadBox` or `UploadApplianceBox`). -/
def Call.isSubmit : Call → Bool
  | .uploadBox _ _ _ => true
  | .uploadApplianceBox _ _ _ => true
  | _ => false

/-- The call goes to the catalog service. -/
def Call.isRemote : Call → Bool
  | .stat _ _ => false
  | .readFile _ _ => false
  | _ => true

/-- The call is a file read or a file upload that failed. -/
def Call.isFailedArtifact : Call → Bool
  | .readFile _ none => true
  | .uploadFile _ _ none => true
  | _ => false

/-- The call belongs to the local file system. -/
def Call.isLocal : Call → Bool
  | .stat _ _ => true
  | .readFile _ _ => true
  | _ => false

/-- The call is one an artifact step makes: a stat, a read or a file upload. -/
def Call.isArtifact : Call → Bool
  | .stat _ _ => true
  | .readFile _ _ => true
  | .uploadFile _ _ _ => true
  | _ => false

/-- What `importBox` runs against.  The file system does not change during a
run; the answers of the catalog service may depend on the calls made so far
(the first argument of each remote function).  Constants, tables and parsers
of the `clccam` package that are declared outside the files at hand are
fields as well. -/
structure Env where
  /-- The function `os.Stat`: `none` on an error, else whether it is a directory. -/
  stat : String → Option Bool
  /-- The function `ioutil.ReadFile`. -/
  readFile : String → Except String Bytes
  /-- The function `yaml.Unmarshal` into a zero `Box`. -/
  unmarshal : Bytes → Except String Box
  /-- The method `client.GetBox`. -/
  getBox : List Call → String → Except String Box
  /-- The method `client.GetTokenSubject`. -/
  getTokenSubject : List Call → Except String String
  /-- The method `client.UploadFile`. -/
  uploadFile : List Call → String → Bytes → Except String BlobResponse
  /-- The method `client.UploadBox`. -/
  uploadBox : List Call → Box → String → Except String Box
  /-- The method `client.UploadApplianceBox`. -/
  uploadApplianceBox : List Call → Box → String → Except String Box
  /-- The function `clccam.UriFromString`. -/
  uriFromString : String → Except String Uri
  /-- The constant `clccam.ScriptBoxSchema`. -/
  ScriptBoxSchema : String
  /-- The function `clccam.BoxEventStrings`. -/
  BoxEventStrings : List String
  /-- The method `BoxEvent.Set`. -/
  boxEventSet : String → Except String BoxEvent
  /-- The constant `clccam.ReadmeName`. -/
  ReadmeName : String
  /-- The value of `time.Now().UTC()` at submission. -/
  now : Nat

/-- The errors `importBox` returns, one per `return nil, ...` of the source. -/
inductive ImportError
  | statBoxDir
  | notADirectory (boxDir : String)
  | readBoxYaml (cause : String)
  | deserialize (cause : String)
  | draftWithoutID
  | tokenOwner (cause : String)
  | scriptBoxSchema (cause : String)
  | setEvent (evtName cause : String)
  | readEvent (evtName cause : String)
  | uploadEvent (evtName cause : String)
  | readVariable (name value cause : String)
  | uploadVariable (name cause : String)
  | readIcon (p cause : String)
  | uploadIcon (p cause : String)
  | readReadme (cause : String)
  | uploadReadme (cause : String)
  | submit (cause : String)
deriving DecidableEq

/-- The state of a run: the calls made so far and the value or error produced. -/
structure Run (α : Type) where
  trace : List Call
  result : Except ImportError α

/-- A computation that extends the trace of calls. -/
def M (α : Type) : Type := List Call → Run α

/-- Return a value, making no call. -/
def M.pure {α : Type} (a : α) : M α := fun h => ⟨h, .ok a⟩

/-- Return an error, making no call. -/
def M.fail {α : Type} (e : ImportError) : M α := fun h => ⟨h, .error e⟩

/-- Sequencing: an error stops the run. -/
def M.bind {α β : Type} (m : M α) (f : α → M β) : M β := fun h =>
  match (m h).result with
  | .ok a => f a (m h).trace
  | .error e => ⟨(m h).trace, .error e⟩

instance : Monad M where
  pure := M.pure
  bind := M.bind

/-- Call `os.Stat`. -/
def osStat (env : Env) (p : String) : M (Option Bool) := fun h =>
  ⟨h ++ [.stat p (env.stat p).isSome], .ok (env.stat p)⟩

/-- Call `ioutil.ReadFile`; on an error return `onErr` of it, as every call
site does. -/
def ioReadFile (env : Env) (p : String) (onErr : String → ImportError) : M Bytes := fun h =>
  ⟨h ++ [.readFile p (env.readFile p).toOption], (env.readFile p).mapError onErr⟩

/-- Call `client.GetBox`; the one call site drops the error. -/
def clientGetBox (env : Env) (id : String) : M (Option Box) := fun h =>
  ⟨h ++ [.getBox id (env.getBox h id).toOption], .ok (env.getBox h id).toOption⟩

/-- Call `client.GetTokenSubject`; on an error return `onErr` of it. -/
def clientGetTokenSubject (env : Env) (onErr : String → ImportError) : M String := fun h =>
  ⟨h ++ [.getTokenSubject (env.getTokenSubject h).toOption],
    (env.getTokenSubject h).mapError onErr⟩

/-- Call `client.UploadFile`; on an error return `onErr` of it, as every call
site does. -/
def clientUploadFile (env : Env) (name : String) (b : Bytes) (onErr : String → ImportError) :
    M BlobResponse := fun h =>
  ⟨h ++ [.uploadFile name b (env.uploadFile h name b).toOption],
    (env.uploadFile h name b).mapError onErr⟩

/-- Call `uploaderFn`: `client.UploadApplianceBox` in raw mode, else
`client.UploadBox`.  Its error is the error of `importBox`. -/
def uploaderFn (env : Env) (rawImport : Bool) (box : Box) (existingId : String) : M Box :=
  fun h =>
    if rawImport then
      ⟨h ++ [.uploadApplianceBox box existingId (env.uploadApplianceBox h box existingId).toOption],
        (env.uploadApplianceBox h box existingId).mapError .submit⟩
    else
      ⟨h ++ [.uploadBox box existingId (env.uploadBox h box existingId).toOption],
        (env.uploadBox h box existingId).mapError .submit⟩

/-! ## importBox (camsole/cmd/boxes.go, lines 263-445) -/

/-- Lines 271-286: check the directory, step into a nested `draft` directory
when it holds a `box.yaml`, read and deserialize `box.yaml`.  Returns the
effective root and the local definition. -/
def loadBox (env : Env) (boxDir : String) : M (String × Box) := do
  match ← osStat env boxDir with
  | none => M.fail .statBoxDir
  | some isDir =>
    if !isDir then M.fail (.notADirectory boxDir) else
    let draft ← osStat env (pathJoin [boxDir, "draft", "box.yaml"])
    let boxDir := if draft.isSome then pathJoin [boxDir, "draft"] else boxDir
    let content ← ioReadFile env (pathJoin [boxDir, "box.yaml"]) .readBoxYaml
    match env.unmarshal content with
    | .error err => M.fail (.deserialize err)
    | .ok box => pure (boxDir, box)

/-- Lines 297-304: see whether a box of the same ID exists; an error of
`GetBox` is ignored. -/
def lookupCurrent (env : Env) (box : Box) : M (Option Box) :=
  if !uuidEqual uuidNil box.ID then clientGetBox env (uuidString box.ID)
  else pure none

/-- Lines 306-337: merge with the existing box, if any.  Returns the box, the
value of `existingId` and the value of the variable `owner`. -/
def reconcile (box : Box) (current : Option Box) (owner : String) (asDraft rawImport : Bool) :
    Box × String × String :=
  match current with
  | none =>
    (if box.Organization = "" then { box with Organization := "elasticbox" } else box, "", owner)
  | some cur =>
    let existingId := uuidString box.ID
    let owner := cur.Owner
    let box := if box.Organization = "" then { box with Organization := cur.Organization } else box
    let box := if rawImport && box.Categories.len == 0 then
      { box with Categories := cur.Categories } else box
    let box := if !asDraft || box.BoxVersion.isSome then
        let v : BoxVersion := match cur.BoxVersion with
          | none => { Box := box.ID, Description := "", Number := 0 }
          | some cv => cv
        { box with BoxVersion := some { v with Description := "Version created using a kind of ebcli" } }
      else box
    (box, existingId, owner)

/-- Lines 339-342: an empty list of members, never a nil one. -/
def normalizeMembers (box : Box) : Box :=
  if box.Members.len == 0 then { box with Members := some [] } else box

/-- Lines 344-353: the owner override, else the owner of the box, else the
subject of the authorization token. -/
def resolveOwner (env : Env) (owner : String) (box : Box) : M Box :=
  if owner ≠ "" then pure { box with Owner := owner }
  else if box.Owner = "" then do
    let user ← clientGetTokenSubject env .tokenOwner
    pure { box with Owner := user }
  else pure box

/-- Lines 355-362: the schema defaults to the Script Box schema. -/
def defaultSchema (env : Env) (box : Box) : M Box :=
  if box.Schema.IsZero then
    match env.uriFromString env.ScriptBoxSchema with
    | .error err => M.fail (.scriptBoxSchema err)
    | .ok s => pure { box with Schema := s }
  else pure box

/-- The assignment `m[k] = v` on a Go map. -/
def mapSet (m : List (BoxEvent × Event)) (k : BoxEvent) (v : Event) : List (BoxEvent × Event) :=
  (k, v) :: m.filter (fun e => e.1 ≠ k)

/-- Lines 369-385: the loop over the event names. -/
def collectEvents (env : Env) (boxDir : String) :
    List String → List (BoxEvent × Event) → M (List (BoxEvent × Event))
  | [], events => pure events
  | evtName :: rest, events => do
    let evtPath := pathJoin [boxDir, "events", evtName]
    match ← osStat env evtPath with
    | none => collectEvents env boxDir rest events
    | some _ =>
      match env.boxEventSet evtName with
      | .error err => M.fail (.setEvent evtName err)
      | .ok evt =>
        let b ← ioReadFile env evtPath (.readEvent evtName)
        let res ← clientUploadFile env evtName b (.uploadEvent evtName)
        collectEvents env boxDir rest (mapSet events evt ⟨res⟩)

/-- Lines 364-386: for the Script Box schema, collect the event scripts. -/
def uploadEvents (env : Env) (boxDir : String) (box : Box) : M Box :=
  if box.Schema.String = env.ScriptBoxSchema then do
    let events ← collectEvents env boxDir env.BoxEventStrings []
    pure { box with Events := events }
  else pure box

/-- Lines 388-399: the loop over the variables; a variable of type `File`
with a non-empty value is read, uploaded and given the URL of the upload. -/
def uploadVariables (env : Env) (boxDir : String) : List Variable → M (List Variable)
  | [] => pure []
  | v :: rest =>
    if v.Typ = "File" ∧ v.Value ≠ "" then do
      let b ← ioReadFile env (pathJoin [boxDir, v.Value]) (.readVariable v.Name v.Value)
      let res ← clientUploadFile env (pathBase v.Value) b (.uploadVariable v.Name)
      let rest ← uploadVariables env boxDir rest
      pure ({ v with Value := res.Url.String } :: rest)
    else do
      let rest ← uploadVariables env boxDir rest
      pure (v :: rest)

/-- Lines 415-423: the branch for the flat icon field. -/
def uploadFlatIcon (env : Env) (boxDir : String) (box : Box) : M Box :=
  if box.Icon ≠ "" then do
    let b ← ioReadFile env (pathJoin [boxDir, box.Icon]) (.readIcon box.Icon)
    let res ← clientUploadFile env (pathBase box.Icon) b (.uploadIcon box.Icon)
    pure { box with Icon := res.Url.String }
  else pure box

/-- Lines 401-423: the icon files. -/
def uploadIcon (env : Env) (boxDir : String) (box : Box) : M Box :=
  match box.IconMetadata with
  | none => uploadFlatIcon env boxDir box
  | some im =>
    if !im.Image.IsZero then
      if !stringsHasPrefix im.Image.Path "images/" then do
        let b ← ioReadFile env (pathJoin [boxDir, im.Image.Path]) (.readIcon im.Image.Path)
        let res ← clientUploadFile env (pathBase im.Image.Path) b (.uploadIcon im.Image.Path)
        pure { box with IconMetadata := some { im with Image := res.Url } }
      else pure box
    else uploadFlatIcon env boxDir box

/-- Lines 425-432: the readme file. -/
def uploadReadme (env : Env) (boxDir : String) (box : Box) : M Box := do
  match ← osStat env (pathJoin [boxDir, env.ReadmeName]) with
  | none => pure box
  | some _ =>
    let b ← ioReadFile env (pathJoin [boxDir, env.ReadmeName]) .readReadme
    let res ← clientUploadFile env env.ReadmeName b .uploadReadme
    pure { box with Readme := res }

/-- Lines 434-444: the arguments of the call of `uploaderFn`. -/
def submitArgs (env : Env) (box : Box) (existingId : String) : Box × String :=
  match box.BoxVersion with
  | some v =>
    if !uuidEqual v.Box box.ID then (box, uuidString v.Box) else (box, existingId)
  | none => ({ box with Created := env.now }, existingId)

/-- Lines 364-432: the artifact steps, in the order of the source. -/
def uploadArtifacts (env : Env) (boxDir : String) (box : Box) : M Box := do
  let box ← uploadEvents env boxDir box
  let vars ← uploadVariables env boxDir box.Variables
  let box ← uploadIcon env boxDir { box with Variables := vars }
  uploadReadme env boxDir box

/-- Lines 292-295: raw import makes the box public.  (The other effect of
the flag, the choice of `uploaderFn`, is in `uploaderFn`.) -/
def forceVisibility (rawImport : Bool) (box : Box) : Box :=
  if rawImport then { box with Visibility := .Visibility_Public } else box

/-- Lines 292-362: the lookup of the existing box, the merge and the
defaults.  Returns the box and the value of `existingId`. -/
def mergeBox (env : Env) (box : Box) (owner : String) (asDraft rawImport : Bool) :
    M (Box × String) := do
  let current ← lookupCurrent env (forceVisibility rawImport box)
  let merged := reconcile (forceVisibility rawImport box) current owner asDraft rawImport
  let box ← resolveOwner env merged.2.2 (normalizeMembers merged.1)
  let box ← defaultSchema env box
  pure (box, merged.2.1)

/-- Lines 288-362: the draft check, then the merge. -/
def reconcileBox (env : Env) (box : Box) (owner : String) (asDraft rawImport : Bool) :
    M (Box × String) :=
  if asDraft && uuidEqual uuidNil box.ID then M.fail .draftWithoutID
  else mergeBox env box owner asDraft rawImport

/-- Everything `importBox` does before it calls `uploaderFn` (lines 263-442).
Returns the two arguments of that call. -/
def prepareBox (env : Env) (boxDir owner : String) (asDraft rawImport : Bool) :
    M (Box × String) := do
  let loaded ← loadBox env boxDir
  let merged ← reconcileBox env loaded.2 owner asDraft rawImport
  let box ← uploadArtifacts env loaded.1 merged.1
  pure (submitArgs env box merged.2)

/-- The function `importBox`, as a computation on the trace. -/
def importBoxM (env : Env) (boxDir owner : String) (asDraft rawImport : Bool) : M Box := do
  let args ← prepareBox env boxDir owner asDraft rawImport
  uploaderFn env rawImport args.1 args.2

/-- The function `importBox`: a run from the empty trace. -/
def importBox (env : Env) (boxDir owner : String) (asDraft rawImport : Bool) : Run Box :=
  importBoxM env boxDir owner asDraft rawImport []

/-- The call is the lookup of the existing box or the query of the token
subject. -/
def Call.isQuery : Call → Bool
  | .getBox _ _ => true
  | .getTokenSubject _ => true
  | _ => false

/-- The computation only appends calls, all of them satisfying `P`; a failed
read or upload among them is the last call and comes with an error; and every
error it returns satisfies `E`. -/
def Sound {α : Type} (P : Call → Prop) (E : ImportError → Prop) (m : M α) : Prop :=
  ∀ h, ∃ l, (m h).trace = h ++ l ∧ (∀ c ∈ l, P c) ∧
    (∀ pre c post, l = pre ++ c :: post → c.isFailedArtifact = true →
      post = [] ∧ ∃ e, (m h).result = .error e) ∧
    ∀ e, (m h).result = .error e → E e

/-- The error is not the one of the draft check. -/
def ImportError.notDraft (e : ImportError) : Prop := e ≠ .draftWithoutID

/-- What the loop over the variables does to one variable: `v` is the
variable as loaded, `w` the variable afterwards. -/
def VariableUploaded (env : Env) (root : String) (trace : List Call) (v w : Variable) : Prop :=
  if v.Typ = "File" ∧ v.Value ≠ "" then
    ∃ content res, env.readFile (pathJoin [root, v.Value]) = .ok content ∧
      Call.uploadFile (pathBase v.Value) content (some res) ∈ trace ∧
      w = { v with Value := res.Url.String }
  else w = v

/-- The test of line 390: the variable is of type `File` and has a value. -/
def Variable.isFileToUpload (v : Variable) : Bool :=
  decide (v.Typ = "File" ∧ v.Value ≠ "")

/-- The call is a call of `client.UploadFile`. -/
def Call.isUpload : Call → Bool
  | .uploadFile _ _ _ => true
  | _ => false

/-- The calls the loop over the variables (lines 388-399) makes, and what it
makes of the variables: `VariableCalls env root h vars vars' seg` says that,
started after the calls `h`, the loop turns `vars` into `vars'` and makes
exactly the calls `seg`, in this order. -/
inductive VariableCalls (env : Env) (root : String) :
    List Call → List Variable → List Variable → List Call → Prop
  /-- No variable is left: no call. -/
  | done (h : List Call) : VariableCalls env root h [] [] []
  /-- A variable that is not of type `File`, or has an empty value, is kept as
  it is, and no call is made for it. -/
  | keep (h : List Call) (v : Variable) (vs ws : List Variable) (seg : List Call) :
      ¬(v.Typ = "File" ∧ v.Value ≠ "") →
      VariableCalls env root h vs ws seg →
      VariableCalls env root h (v :: vs) (v :: ws) seg
  /-- A variable of type `File` with a non-empty value: one successful read of
  its path under the root, then one successful upload of these contents under
  the base name of the path; its value becomes the string of the returned URL. -/
  | upload (h : List Call) (v : Variable) (vs ws : List Variable) (seg : List Call)
      (content : Bytes) (res : BlobResponse) :
      v.Typ = "File" → v.Value ≠ "" →
      env.readFile (pathJoin [root, v.Value]) = .ok content →
      env.uploadFile (h ++ [.readFile (pathJoin [root, v.Value]) (some content)])
        (pathBase v.Value) content = .ok res →
      VariableCalls env root
        (h ++ [.readFile (pathJoin [root, v.Value]) (some content),
          .uploadFile (pathBase v.Value) content (some res)]) vs ws seg →
      VariableCalls env root h (v :: vs) ({ v with Value := res.Url.String } :: ws)
        (.readFile (pathJoin [root, v.Value]) (some content)
          :: .uploadFile (pathBase v.Value) content (some res) :: seg)

/-- Lines 263-386: what `importBox` does before the loop over the variables.
Returns the effective root, the box and the value of `existingId`. -/
def beforeVariables (env : Env) (boxDir owner : String) (asDraft rawImport : Bool) :
    M (String × Box × String) := do
  let loaded ← loadBox env boxDir
  let merged ← reconcileBox env loaded.2 owner asDraft rawImport
  let box ← uploadEvents env loaded.1 merged.1
  pure (loaded.1, box, merged.2)

/-- Lines 401-444: what `importBox` does after the loop over the variables. -/
def afterVariables (env : Env) (boxDir : String) (rawImport : Bool) (box : Box)
    (existingId : String) : M Box := do
  let box ← uploadIcon env boxDir box
  let box ← uploadReadme env boxDir box
  uploaderFn env rawImport (submitArgs env box existingId).1 (submitArgs env box existingId).2

/-- What the icon step does: `icon` and `md` are the two icon fields before
it, `b` is the box after it. -/
def IconUploaded (env : Env) (root : String) (trace : List Call) (icon : String)
    (md : Option IconMetadata) (b : Box) : Prop :=
  (∀ im, md = some im → im.Image.IsZero = false →
    stringsHasPrefix im.Image.Path "images/" = false →
      b.Icon = icon ∧ ∃ content res,
        env.readFile (pathJoin [root, im.Image.Path]) = .ok content ∧
        Call.uploadFile (pathBase im.Image.Path) content (some res) ∈ trace ∧
        b.IconMetadata = some { im with Image := res.Url }) ∧
  (∀ im, md = some im → im.Image.IsZero = false →
    stringsHasPrefix im.Image.Path "images/" = true →
      b.Icon = icon ∧ b.IconMetadata = md) ∧
  ((md = none ∨ ∃ im, md = some im ∧ im.Image.IsZero = true) → icon ≠ "" →
    b.IconMetadata = md ∧ ∃ content res,
      env.readFile (pathJoin [root, icon]) = .ok content ∧
      Call.uploadFile (pathBase icon) content (some res) ∈ trace ∧
      b.Icon = res.Url.String)

/-- The run calls the submission function with the definition `b` and the
existing identity `eid`. -/
def Submits (r : Run Box) (b : Box) (eid : String) : Prop :=
  ∃ res, Call.uploadBox b eid res ∈ r.trace ∨ Call.uploadApplianceBox b eid res ∈ r.trace

/-! ## Retryer (options.go, lines 28-59) -/

/-- The part of `http.Response` the retry function reads. -/
structure Response where
  StatusCode : Int
deriving DecidableEq

/-- The type `rehttp.Attempt`: the index of the attempt and its response,
`none` when the attempt produced no response. -/
structure Attempt where
  Index : Int
  Response : Option Response
deriving DecidableEq

/-- The function given to `rehttp.RetryFn` by `Retryer` (lines 36-52). -/
def retryFn (maxRetries : Int) (att : Attempt) : Bool :=
  if att.Index < maxRetries then
    match att.Response with
    | none => true
    | some r =>
      if r.StatusCode = 408 ∨ r.StatusCode = 500 ∨ r.StatusCode = 502 ∨ r.StatusCode = 503
          ∨ r.StatusCode = 504 then true
      else false
  else false

/-- The outcome of an attempt as the specification describes a retryable one:
no response, or a status code among 408, 500, 502, 503 and 504. -/
def retryableOutcome (o : Option Response) : Bool :=
  match o with
  | none => true
  | some r => decide (r.StatusCode ∈ [408, 500, 502, 503, 504])

/-- The number of retries when `retryFn` is consulted after each attempt, the
first of these attempts having index `idx`: the transport retries as long as
the function answers `true`. -/
def retryCount (maxRetries : Int) : Nat → List (Option Response) → Nat
  | _, [] => 0
  | idx, o :: rest =>
    if retryFn maxRetries ⟨idx, o⟩ then retryCount maxRetries (idx + 1) rest + 1 else 0

/-- The outcome the request ends on: the outcome of the first attempt after
which `retryFn` answers `false` (`none` when the outcomes run out first). -/
def finalOutcome (maxRetries : Int) : Nat → List (Option Response) → Option (Option Response)
  | _, [] => none
  | idx, o :: rest =>
    if retryFn maxRetries ⟨idx, o⟩ then finalOutcome maxRetries (idx + 1) rest else some o

/-! ## A concrete box directory and catalog -/

/-- The zero value of `Box`. -/
def zeroBox : Box :=
  { ID := uuidNil, Name := "", Organization := "", Owner := "",
    Visibility := .Visibility_Workspace, Schema := ⟨"", "", ""⟩, Categories := none,
    Members := none, BoxVersion := none, Events := [], Variables := [], Icon := "",
    IconMetadata := none, Readme := ⟨⟨"", "", ""⟩, 0⟩, Created := 0 }

/-- A directory `box` holding `box.yaml` (which deserializes to `loc`),
`data/config.json` and `icon.png`, and a catalog that knows the box `remote`,
if any, and accepts every upload. -/
def sampleEnv (loc : Box) (remote : Option Box) : Env where
  stat := fun p =>
    if p = "box" then some true
    else if p = "box/box.yaml" ∨ p = "box/data/config.json" ∨ p = "box/icon.png" then some false
    else none
  readFile := fun p =>
    if p = "box/box.yaml" then .ok [98, 111, 120]
    else if p = "box/data/config.json" then .ok [123, 125]
    else if p = "box/icon.png" then .ok [137, 80, 78, 71]
    else .error "no such file or directory"
  unmarshal := fun _ => .ok loc
  getBox := fun _ _ =>
    match remote with
    | some b => .ok b
    | none => .error "404 Not Found"
  getTokenSubject := fun _ => .ok "token-user"
  uploadFile := fun _ name _ => .ok ⟨⟨"https", "blobs.example", "/" ++ name⟩, 0⟩
  uploadBox := fun _ b _ => .ok b
  uploadApplianceBox := fun _ b _ => .ok b
  uriFromString := fun _ => .ok ⟨"http", "elasticbox.net", "/schemas/boxes/script"⟩
  ScriptBoxSchema := "http://elasticbox.net/schemas/boxes/script"
  BoxEventStrings := ["configure", "install", "dispose"]
  boxEventSet := fun s =>
    if s = "configure" then .ok 0 else if s = "install" then .ok 1 else .ok 2
  ReadmeName := "readme.md"
  now := 1000


/-! ## Sample definitions used to exercise the theorems -/

/-- A box with one member, updating a box whose member list differs. -/
def membersLocal : Box :=
  { zeroBox with ID := 5, Owner := "alice", Members := some [⟨"ws-local", "collaborator"⟩] }

/-- The existing box of `membersLocal`. -/
def membersRemote : Box :=
  { zeroBox with ID := 5, Owner := "bob", Members := some [⟨"ws-stale", "owner"⟩] }

/-- The definition submitted for `membersLocal`. -/
def membersSubmitted : Box :=
  { membersLocal with
    Owner := "bob"
    Schema := ⟨"http", "elasticbox.net", "/schemas/boxes/script"⟩
    BoxVersion := some ⟨5, "Version created using a kind of ebcli", 0⟩ }

/-- A box with a `File` variable whose file does not exist. -/
def missingFileLocal : Box :=
  { zeroBox with Owner := "alice", Variables := [⟨"cfg", "File", "missing.txt"⟩] }

/-- The Script Box schema as `sampleEnv` parses it. -/
def sampleSchema : Uri := ⟨"http", "elasticbox.net", "/schemas/boxes/script"⟩

/-- A box owned by alice, with the identity of an existing box. -/
def ownerLocal : Box := { zeroBox with ID := 5, Owner := "alice" }

/-- An existing box that records no owner. -/
def ownerlessRemote : Box := { zeroBox with ID := 5 }

/-- An existing box owned by bob. -/
def ownerRemote : Box := { zeroBox with ID := 5, Owner := "bob" }

/-- The definition submitted for `ownerLocal`, up to its owner. -/
def ownerSubmitted (owner : String) : Box :=
  { zeroBox with ID := 5, Owner := owner, Members := some [], Schema := sampleSchema,
                 BoxVersion := some ⟨5, "Version created using a kind of ebcli", 0⟩ }

/-- A new box (no identity) whose `box.yaml` declares a version of box 7. -/
def versionedLocal : Box := { zeroBox with Owner := "alice", BoxVersion := some ⟨7, "", 0⟩ }

/-- The definition submitted for `versionedLocal`. -/
def versionedSubmitted : Box :=
  { versionedLocal with Organization := "elasticbox", Members := some [], Schema := sampleSchema }

/-- An update of box 5 whose `box.yaml` declares version 2 of box 9. -/
def versionLocal : Box :=
  { zeroBox with ID := 5, Owner := "alice", BoxVersion := some ⟨9, "my version", 2⟩ }

/-- A new box that declares no version object. -/
def plainLocal : Box := { zeroBox with Owner := "alice" }

/-- The definition submitted for `plainLocal`. -/
def plainSubmitted : Box :=
  { plainLocal with Organization := "elasticbox", Members := some [], Schema := sampleSchema,
                    Created := 1000 }

/-- A new box with a `File` variable that names no file. -/
def emptyFileLocal : Box :=
  { zeroBox with Owner := "alice", Variables := [⟨"cfg", "File", ""⟩] }

/-- The definition submitted for `emptyFileLocal`. -/
def emptyFileSubmitted : Box :=
  { emptyFileLocal with Organization := "elasticbox", Members := some [],
                        Schema := sampleSchema, Created := 1000 }

/-- An update of box 5 with a `File` variable and a text variable. -/
def configLocal : Box :=
  { zeroBox with ID := 5, Owner := "alice",
                 Variables := [⟨"cfg", "File", "data/config.json"⟩, ⟨"port", "Port", "8080"⟩] }

/-- The definition submitted for `configLocal`. -/
def configSubmitted : Box :=
  { zeroBox with
    ID := 5, Owner := "bob", Members := some [], Schema := sampleSchema, Created := 1000
    Variables := [⟨"cfg", "File", "https://blobs.example/config.json"⟩,
      ⟨"port", "Port", "8080"⟩] }

/-- A new box with both icon fields set, the structured one already uploaded. -/
def iconLocal : Box :=
  { zeroBox with Owner := "alice", Icon := "icon.png",
                 IconMetadata := some ⟨⟨"", "", "images/logo.png"⟩, "#ffffff"⟩ }

/-- The definition submitted for `iconLocal`. -/
def iconSubmitted : Box :=
  { iconLocal with Organization := "elasticbox", Members := some [], Schema := sampleSchema,
                   Created := 1000 }

/-- A new box with a flat icon only. -/
def flatIconLocal : Box := { zeroBox with Owner := "alice", Icon := "icon.png" }

/-- The definition submitted for `flatIconLocal`. -/
def flatIconSubmitted : Box :=
  { flatIconLocal with Organization := "elasticbox", Members := some [],
                       Schema := sampleSchema, Created := 1000,
                       Icon := "https://blobs.example/icon.png" }

/-! # Theorems -/

/-! ## The trace discipline -/

theorem bind_apply {α β : Type} (m : M α) (f : α → M β) (h : List Call) :
    (m >>= f) h = match (m h).result with
      | .ok a => f a (m h).trace
      | .error e => ⟨(m h).trace, .error e⟩ := rfl

theorem pure_apply {α : Type} (a : α) (h : List Call) : (pure a : M α) h = ⟨h, .ok a⟩ := rfl

theorem fail_apply {α : Type} (e : ImportError) (h : List Call) :
    (M.fail e : M α) h = ⟨h, .error e⟩ := rfl

theorem bind_result_ok {α β : Type} {m : M α} {f : α → M β} {h : List Call} {b : β}
    (hb : ((m >>= f) h).result = .ok b) :
    ∃ a, (m h).result = .ok a ∧ (f a (m h).trace).result = .ok b ∧
      ((m >>= f) h).trace = (f a (m h).trace).trace := by
  rw [bind_apply] at hb ⊢
  cases hm : (m h).result with
  | error e => rw [hm] at hb; simp at hb
  | ok a => rw [hm] at hb; exact ⟨a, rfl, hb, rfl⟩

theorem bind_result_error {α β : Type} {m : M α} {f : α → M β} {h : List Call}
    {e : ImportError} (hb : ((m >>= f) h).result = .error e) :
    (m h).result = .error e ∨ ∃ a, (m h).result = .ok a ∧ (f a (m h).trace).result = .error e := by
  rw [bind_apply] at hb
  cases hm : (m h).result with
  | error e' => rw [hm] at hb; simp at hb; left; rw [hb]
  | ok a => rw [hm] at hb; exact Or.inr ⟨a, rfl, hb⟩

theorem Sound.mono {α : Type} {P Q : Call → Prop} {E F : ImportError → Prop} {m : M α}
    (hm : Sound P E m) (hPQ : ∀ c, P c → Q c) (hEF : ∀ e, E e → F e) : Sound Q F m := by
  intro h
  obtain ⟨l, h1, h2, h3, h4⟩ := hm h
  exact ⟨l, h1, fun c hc => hPQ c (h2 c hc), h3, fun e he => hEF e (h4 e he)⟩

theorem Sound.calls {α : Type} {P Q : Call → Prop} {E : ImportError → Prop} {m : M α}
    (hm : Sound P E m) (hPQ : ∀ c, P c → Q c) : Sound Q E m :=
  hm.mono hPQ fun _ he => he

theorem Sound.pure {α : Type} (P : Call → Prop) (E : ImportError → Prop) (a : α) :
    Sound P E (pure a : M α) := by
  intro h
  refine ⟨[], by simp [pure_apply], by simp, ?_, by simp [pure_apply]⟩
  intro pre c post hl
  simp at hl

theorem Sound.fail {α : Type} (P : Call → Prop) {E : ImportError → Prop} {e : ImportError}
    (he : E e) : Sound P E (M.fail e : M α) := by
  intro h
  refine ⟨[], by simp [fail_apply], by simp, ?_, ?_⟩
  · intro pre c post hl
    simp at hl
  · intro e' he'
    simp [fail_apply] at he'
    rw [← he']
    exact he

theorem Sound.bind {α β : Type} {P : Call → Prop} {E : ImportError → Prop} {m : M α}
    {f : α → M β} (hm : Sound P E m) (hf : ∀ a, Sound P E (f a)) : Sound P E (m >>= f) := by
  intro h
  obtain ⟨l, h1, h2, h3, h4⟩ := hm h
  rw [bind_apply]
  cases hr : (m h).result with
  | error e =>
    refine ⟨l, h1, h2, ?_, ?_⟩
    · intro pre c post hl hc
      exact ⟨(h3 pre c post hl hc).1, e, rfl⟩
    · intro e' he'
      simp at he'
      rw [← he']
      exact h4 e hr
  | ok a =>
    obtain ⟨l', g1, g2, g3, g4⟩ := hf a (m h).trace
    refine ⟨l ++ l', by rw [g1, h1, List.append_assoc], ?_, ?_, g4⟩
    · intro c hc
      rcases List.mem_append.1 hc with hc | hc
      · exact h2 c hc
      · exact g2 c hc
    · intro pre c post hl hc
      rcases List.append_eq_append_iff.1 hl with ⟨a', _, ha2⟩ | ⟨c', hc1, hc2⟩
      · exact g3 a' c post ha2 hc
      · cases c' with
        | nil =>
          simp at hc1 hc2
          exact g3 [] c post (by simp [hc2]) hc
        | cons d c'' =>
          simp at hc2
          obtain ⟨e, he⟩ := (h3 pre c c'' (by rw [hc1, hc2.1]) hc).2
          rw [hr] at he
          simp at he

theorem Sound.single {α : Type} {P : Call → Prop} {E : ImportError → Prop} {m : M α}
    (hm : ∀ h, ∃ c, (m h).trace = h ++ [c] ∧ P c ∧
      (c.isFailedArtifact = true → ∃ e, (m h).result = .error e) ∧
      ∀ e, (m h).result = .error e → E e) : Sound P E m := by
  intro h
  obtain ⟨c, h1, h2, h3, h4⟩ := hm h
  refine ⟨[c], h1, by simpa using h2, ?_, h4⟩
  intro pre d post hl hd
  cases pre with
  | nil =>
    simp at hl
    rw [← hl.1] at hd
    exact ⟨hl.2, h3 hd⟩
  | cons x pre => simp at hl

theorem Sound.trace_eq {α : Type} {P : Call → Prop} {E : ImportError → Prop} {m : M α}
    (hm : Sound P E m) (h : List Call) : ∃ l, (m h).trace = h ++ l ∧ ∀ c ∈ l, P c := by
  obtain ⟨l, h1, h2, _⟩ := hm h
  exact ⟨l, h1, h2⟩

/-! ## The calls of each step -/

theorem osStat_sound (env : Env) (p : String) (E : ImportError → Prop) :
    Sound (fun c => c.isLocal = true) E (osStat env p) :=
  Sound.single fun _ => ⟨_, rfl, rfl, fun hc => by simp [Call.isFailedArtifact] at hc,
    fun e he => by simp [osStat] at he⟩

theorem ioReadFile_sound (env : Env) (p : String) (onErr : String → ImportError)
    {E : ImportError → Prop} (hE : ∀ s, E (onErr s)) :
    Sound (fun c => c.isLocal = true) E (ioReadFile env p onErr) := by
  refine Sound.single fun h => ⟨_, rfl, rfl, fun hc => ?_, fun e he => ?_⟩
  · simp only [ioReadFile]
    cases hr : env.readFile p with
    | error e => exact ⟨_, rfl⟩
    | ok b => rw [hr] at hc; simp [Call.isFailedArtifact, Except.toOption] at hc
  · simp only [ioReadFile] at he
    cases hr : env.readFile p with
    | error s => rw [hr] at he; simp [Except.mapError] at he; rw [← he]; exact hE s
    | ok b => rw [hr] at he; simp [Except.mapError] at he

theorem clientUploadFile_sound (env : Env) (name : String) (b : Bytes)
    (onErr : String → ImportError) {E : ImportError → Prop} (hE : ∀ s, E (onErr s)) :
    Sound (fun c => c.isArtifact = true) E (clientUploadFile env name b onErr) := by
  refine Sound.single fun h => ⟨_, rfl, rfl, fun hc => ?_, fun e he => ?_⟩
  · simp only [clientUploadFile]
    cases hr : env.uploadFile h name b with
    | error e => exact ⟨_, rfl⟩
    | ok b => rw [hr] at hc; simp [Call.isFailedArtifact, Except.toOption] at hc
  · simp only [clientUploadFile] at he
    cases hr : env.uploadFile h name b with
    | error s => rw [hr] at he; simp [Except.mapError] at he; rw [← he]; exact hE s
    | ok b => rw [hr] at he; simp [Except.mapError] at he

theorem clientGetBox_sound (env : Env) (id : String) (E : ImportError → Prop) :
    Sound (fun c => ∃ x, c = .getBox id x) E (clientGetBox env id) :=
  Sound.single fun _ => ⟨_, rfl, ⟨_, rfl⟩, fun hc => by simp [Call.isFailedArtifact] at hc,
    fun e he => by simp [clientGetBox] at he⟩

theorem clientGetTokenSubject_sound (env : Env) (onErr : String → ImportError)
    {E : ImportError → Prop} (hE : ∀ s, E (onErr s)) :
    Sound (fun c => ∃ x, c = .getTokenSubject x) E (clientGetTokenSubject env onErr) := by
  refine Sound.single fun h => ⟨_, rfl, ⟨_, rfl⟩,
    fun hc => by simp [Call.isFailedArtifact] at hc, fun e he => ?_⟩
  simp only [clientGetTokenSubject] at he
  cases hr : env.getTokenSubject h with
  | error s => rw [hr] at he; simp [Except.mapError] at he; rw [← he]; exact hE s
  | ok b => rw [hr] at he; simp [Except.mapError] at he

theorem local_isArtifact (c : Call) (hc : c.isLocal = true) : c.isArtifact = true := by
  cases c <;> simp_all [Call.isLocal, Call.isArtifact]

theorem readArtifact_sound (env : Env) (p : String) (onErr : String → ImportError)
    {E : ImportError → Prop} (hE : ∀ s, E (onErr s)) :
    Sound (fun c => c.isArtifact = true) E (ioReadFile env p onErr) :=
  (ioReadFile_sound env p onErr hE).calls local_isArtifact

theorem statArtifact_sound (env : Env) (p : String) (E : ImportError → Prop) :
    Sound (fun c => c.isArtifact = true) E (osStat env p) :=
  (osStat_sound env p E).calls local_isArtifact

theorem loadBox_sound (env : Env) (boxDir : String) :
    Sound (fun c => c.isLocal = true) ImportError.notDraft (loadBox env boxDir) := by
  unfold loadBox
  refine Sound.bind (osStat_sound _ _ _) fun st => ?_
  split
  · exact Sound.fail _ (by simp [ImportError.notDraft])
  · split
    · exact Sound.fail _ (by simp [ImportError.notDraft])
    · refine Sound.bind (osStat_sound _ _ _) fun draft => ?_
      refine Sound.bind (ioReadFile_sound _ _ _ (by simp [ImportError.notDraft])) fun content => ?_
      split
      · exact Sound.fail _ (by simp [ImportError.notDraft])
      · exact Sound.pure _ _ _

theorem lookupCurrent_sound (env : Env) (box : Box) (E : ImportError → Prop) :
    Sound (fun c => ∃ x, c = .getBox (uuidString box.ID) x) E (lookupCurrent env box) := by
  unfold lookupCurrent
  split
  · exact clientGetBox_sound _ _ _
  · exact Sound.pure _ _ _

theorem resolveOwner_sound (env : Env) (owner : String) (box : Box) :
    Sound (fun c => ∃ x, c = .getTokenSubject x) ImportError.notDraft
      (resolveOwner env owner box) := by
  unfold resolveOwner
  split
  · exact Sound.pure _ _ _
  · split
    · exact Sound.bind (clientGetTokenSubject_sound _ _ (by simp [ImportError.notDraft]))
        fun _ => Sound.pure _ _ _
    · exact Sound.pure _ _ _

theorem defaultSchema_sound (P : Call → Prop) (env : Env) (box : Box) :
    Sound P ImportError.notDraft (defaultSchema env box) := by
  unfold defaultSchema
  split
  · split
    · exact Sound.fail _ (by simp [ImportError.notDraft])
    · exact Sound.pure _ _ _
  · exact Sound.pure _ _ _

theorem collectEvents_sound (env : Env) (boxDir : String) (names : List String) :
    ∀ events, Sound (fun c => c.isArtifact = true) ImportError.notDraft
      (collectEvents env boxDir names events) := by
  induction names with
  | nil => intro events; exact Sound.pure _ _ _
  | cons evtName rest ih =>
    intro events
    unfold collectEvents
    refine Sound.bind (statArtifact_sound _ _ _) fun st => ?_
    split
    · exact ih _
    · split
      · exact Sound.fail _ (by simp [ImportError.notDraft])
      · refine Sound.bind (readArtifact_sound _ _ _ (by simp [ImportError.notDraft])) fun b => ?_
        exact Sound.bind (clientUploadFile_sound _ _ _ _ (by simp [ImportError.notDraft]))
          fun res => ih _

theorem uploadEvents_sound (env : Env) (boxDir : String) (box : Box) :
    Sound (fun c => c.isArtifact = true) ImportError.notDraft (uploadEvents env boxDir box) := by
  unfold uploadEvents
  split
  · exact Sound.bind (collectEvents_sound _ _ _ _) fun _ => Sound.pure _ _ _
  · exact Sound.pure _ _ _

theorem uploadVariables_sound (env : Env) (boxDir : String) (vars : List Variable) :
    Sound (fun c => c.isArtifact = true) ImportError.notDraft
      (uploadVariables env boxDir vars) := by
  induction vars with
  | nil => exact Sound.pure _ _ _
  | cons v rest ih =>
    unfold uploadVariables
    split
    · refine Sound.bind (readArtifact_sound _ _ _ (by simp [ImportError.notDraft])) fun b => ?_
      refine Sound.bind (clientUploadFile_sound _ _ _ _ (by simp [ImportError.notDraft]))
        fun res => ?_
      exact Sound.bind ih fun _ => Sound.pure _ _ _
    · exact Sound.bind ih fun _ => Sound.pure _ _ _

theorem uploadFlatIcon_sound (env : Env) (boxDir : String) (box : Box) :
    Sound (fun c => c.isArtifact = true) ImportError.notDraft
      (uploadFlatIcon env boxDir box) := by
  unfold uploadFlatIcon
  split
  · refine Sound.bind (readArtifact_sound _ _ _ (by simp [ImportError.notDraft])) fun b => ?_
    exact Sound.bind (clientUploadFile_sound _ _ _ _ (by simp [ImportError.notDraft]))
      fun res => Sound.pure _ _ _
  · exact Sound.pure _ _ _

theorem uploadIcon_sound (env : Env) (boxDir : String) (box : Box) :
    Sound (fun c => c.isArtifact = true) ImportError.notDraft (uploadIcon env boxDir box) := by
  unfold uploadIcon
  split
  · exact uploadFlatIcon_sound _ _ _
  · split
    · split
      · refine Sound.bind (readArtifact_sound _ _ _ (by simp [ImportError.notDraft])) fun b => ?_
        exact Sound.bind (clientUploadFile_sound _ _ _ _ (by simp [ImportError.notDraft]))
          fun res => Sound.pure _ _ _
      · exact Sound.pure _ _ _
    · exact uploadFlatIcon_sound _ _ _

theorem uploadReadme_sound (env : Env) (boxDir : String) (box : Box) :
    Sound (fun c => c.isArtifact = true) ImportError.notDraft (uploadReadme env boxDir box) := by
  unfold uploadReadme
  refine Sound.bind (statArtifact_sound _ _ _) fun st => ?_
  split
  · exact Sound.pure _ _ _
  · refine Sound.bind (readArtifact_sound _ _ _ (by simp [ImportError.notDraft])) fun b => ?_
    exact Sound.bind (clientUploadFile_sound _ _ _ _ (by simp [ImportError.notDraft]))
      fun res => Sound.pure _ _ _

theorem uploadArtifacts_sound (env : Env) (boxDir : String) (box : Box) :
    Sound (fun c => c.isArtifact = true) ImportError.notDraft
      (uploadArtifacts env boxDir box) := by
  unfold uploadArtifacts
  refine Sound.bind (uploadEvents_sound _ _ _) fun b1 => ?_
  refine Sound.bind (uploadVariables_sound _ _ _) fun vars => ?_
  exact Sound.bind (uploadIcon_sound _ _ _) fun b2 => uploadReadme_sound _ _ _

theorem mergeBox_sound (env : Env) (box : Box) (owner : String) (asDraft rawImport : Bool) :
    Sound (fun c => c.isQuery = true) ImportError.notDraft
      (mergeBox env box owner asDraft rawImport) := by
  unfold mergeBox
  refine Sound.bind ((lookupCurrent_sound _ _ _).calls ?_) fun cur => ?_
  · rintro c ⟨x, rfl⟩; rfl
  · refine Sound.bind ((resolveOwner_sound _ _ _).calls ?_) fun b => ?_
    · rintro c ⟨x, rfl⟩; rfl
    · exact Sound.bind (defaultSchema_sound _ _ _) fun _ => Sound.pure _ _ _

theorem reconcileBox_sound (env : Env) (box : Box) (owner : String) (asDraft rawImport : Bool) :
    Sound (fun c => c.isQuery = true) (fun _ => True)
      (reconcileBox env box owner asDraft rawImport) := by
  unfold reconcileBox
  split
  · exact Sound.fail _ trivial
  · exact (mergeBox_sound _ _ _ _ _).mono (fun _ hc => hc) fun _ _ => trivial

theorem prepareBox_sound (env : Env) (boxDir owner : String) (asDraft rawImport : Bool) :
    Sound (fun c => c.isSubmit = false) (fun _ => True)
      (prepareBox env boxDir owner asDraft rawImport) := by
  unfold prepareBox
  refine Sound.bind ((loadBox_sound _ _).mono ?_ fun _ _ => trivial) fun loaded => ?_
  · intro c hc; cases c <;> simp_all [Call.isLocal, Call.isSubmit]
  · refine Sound.bind ((reconcileBox_sound _ _ _ _ _).calls ?_) fun merged => ?_
    · intro c hc; cases c <;> simp_all [Call.isQuery, Call.isSubmit]
    · refine Sound.bind ((uploadArtifacts_sound _ _ _).mono ?_ fun _ _ => trivial)
        fun b => Sound.pure _ _ _
      intro c hc; cases c <;> simp_all [Call.isArtifact, Call.isSubmit]

/-! ## What each step returns -/

theorem lookupCurrent_nil (env : Env) (box : Box) (h : List Call) (hid : box.ID = uuidNil) :
    lookupCurrent env box h = ⟨h, .ok none⟩ := by
  simp [lookupCurrent, hid, uuidEqual, pure_apply]

theorem lookupCurrent_id (env : Env) (box : Box) (h : List Call) (hid : box.ID ≠ uuidNil) :
    lookupCurrent env box h =
      ⟨h ++ [.getBox (uuidString box.ID) (env.getBox h (uuidString box.ID)).toOption],
        .ok (env.getBox h (uuidString box.ID)).toOption⟩ := by
  have : uuidEqual uuidNil box.ID = false := by
    simp only [uuidEqual, beq_eq_false_iff_ne]
    exact fun hh => hid hh.symm
  simp [lookupCurrent, this, clientGetBox]

theorem forceVisibility_eq (rawImport : Bool) (box : Box) :
    forceVisibility rawImport box =
      { box with Visibility := (forceVisibility rawImport box).Visibility } := by
  unfold forceVisibility
  split <;> rfl

theorem reconcile_frame (box : Box) (current : Option Box) (owner : String)
    (asDraft rawImport : Bool) :
    (reconcile box current owner asDraft rawImport).1 =
      { box with
        Organization := (reconcile box current owner asDraft rawImport).1.Organization
        Categories := (reconcile box current owner asDraft rawImport).1.Categories
        BoxVersion := (reconcile box current owner asDraft rawImport).1.BoxVersion } := by
  unfold reconcile
  cases current with
  | none => simp only []; split <;> rfl
  | some cur => simp only []; split <;> split <;> split <;> rfl

theorem reconcile_none (box : Box) (owner : String) (asDraft rawImport : Bool) :
    (reconcile box none owner asDraft rawImport).1.BoxVersion = box.BoxVersion ∧
    (reconcile box none owner asDraft rawImport).2.1 = "" ∧
    (reconcile box none owner asDraft rawImport).2.2 = owner := by
  unfold reconcile
  by_cases h1 : box.Organization = "" <;> simp [h1]

theorem reconcile_some (box cur : Box) (owner : String) (asDraft rawImport : Bool) :
    (reconcile box (some cur) owner asDraft rawImport).2.1 = uuidString box.ID ∧
    (reconcile box (some cur) owner asDraft rawImport).2.2 = cur.Owner ∧
    (reconcile box (some cur) owner asDraft rawImport).1.BoxVersion =
      if asDraft = false ∨ box.BoxVersion.isSome = true then
        some { (match cur.BoxVersion with
          | none => ({ Box := box.ID, Description := "", Number := 0 } : BoxVersion)
          | some cv => cv) with Description := "Version created using a kind of ebcli" }
      else box.BoxVersion := by
  unfold reconcile
  refine ⟨rfl, rfl, ?_⟩
  by_cases h1 : box.Organization = "" <;> by_cases h2 : box.Categories.len = 0 <;>
    cases rawImport <;> cases asDraft <;> cases hv : box.BoxVersion <;>
    cases hc : cur.BoxVersion <;> simp [h1, h2, hv, hc]

theorem normalizeMembers_eq (box : Box) :
    normalizeMembers box = { box with Members := some box.Members.elems } := by
  unfold normalizeMembers
  cases hm : box.Members with
  | none => simp [Slice.len, Slice.elems]
  | some l =>
    cases l with
    | nil => simp [Slice.len, Slice.elems]
    | cons x l => simp [Slice.len, Slice.elems, ← hm]

theorem resolveOwner_ok {env : Env} {owner : String} {box b : Box} {h : List Call}
    (hr : (resolveOwner env owner box h).result = .ok b) :
    b = { box with Owner := b.Owner } ∧
    (owner ≠ "" → b.Owner = owner) ∧
    (owner = "" → box.Owner ≠ "" → b.Owner = box.Owner) ∧
    (owner = "" → box.Owner = "" →
      Call.getTokenSubject (some b.Owner) ∈ (resolveOwner env owner box h).trace) := by
  unfold resolveOwner at hr ⊢
  split at hr
  · rename_i ho
    simp [pure_apply] at hr
    subst hr
    exact ⟨rfl, fun _ => rfl, fun h0 => absurd h0 ho, fun h0 => absurd h0 ho⟩
  · rename_i ho
    split at hr
    · rename_i hb
      obtain ⟨user, hu, hp, _⟩ := bind_result_ok hr
      simp [pure_apply] at hp
      subst hp
      refine ⟨rfl, fun h0 => absurd (not_not.1 ho) h0, fun _ h0 => absurd hb h0, fun _ _ => ?_⟩
      simp only [hb, if_true, if_neg ho, bind_apply, hu, pure_apply]
      simp only [clientGetTokenSubject] at hu ⊢
      cases ht : env.getTokenSubject h with
      | error s => rw [ht] at hu; simp [Except.mapError] at hu
      | ok u =>
        rw [ht] at hu
        simp [Except.mapError] at hu
        simp [Except.toOption, hu]
    · rename_i hb
      simp [pure_apply] at hr
      subst hr
      exact ⟨rfl, fun h0 => absurd (not_not.1 ho) h0, fun _ _ => rfl, fun _ h0 => absurd h0 hb⟩

theorem defaultSchema_ok {env : Env} {box b : Box} {h : List Call}
    (hr : (defaultSchema env box h).result = .ok b) :
    b = { box with Schema := b.Schema } := by
  unfold defaultSchema at hr
  by_cases hz : box.Schema.IsZero = true
  · rw [if_pos hz] at hr
    cases hu : env.uriFromString env.ScriptBoxSchema with
    | error s => rw [hu] at hr; simp [fail_apply] at hr
    | ok u => rw [hu] at hr; simp [pure_apply] at hr; subst hr; rfl
  · rw [if_neg hz] at hr
    simp [pure_apply] at hr; subst hr; rfl

theorem bind_run_ok {α β : Type} {m : M α} {f : α → M β} {h tr : List Call} {b : β}
    (hb : (m >>= f) h = ⟨tr, .ok b⟩) :
    ∃ a tr', m h = ⟨tr', .ok a⟩ ∧ f a tr' = ⟨tr, .ok b⟩ := by
  rw [bind_apply] at hb
  cases hm : (m h).result with
  | error e =>
    rw [hm] at hb
    have := congrArg Run.result hb
    simp at this
  | ok a =>
    rw [hm] at hb
    refine ⟨a, (m h).trace, ?_, hb⟩
    rw [← hm]

theorem Sound.run {α : Type} {P : Call → Prop} {E : ImportError → Prop} {m : M α}
    (hm : Sound P E m) {h tr : List Call} {r : Except ImportError α} (hr : m h = ⟨tr, r⟩) :
    ∃ l, tr = h ++ l ∧ ∀ c ∈ l, P c := by
  obtain ⟨l, h1, h2, _⟩ := hm h
  rw [hr] at h1
  exact ⟨l, h1, h2⟩

theorem forceVisibility_fields (rawImport : Bool) (box : Box) :
    (forceVisibility rawImport box).ID = box.ID ∧
    (forceVisibility rawImport box).Owner = box.Owner ∧
    (forceVisibility rawImport box).Members = box.Members ∧
    (forceVisibility rawImport box).BoxVersion = box.BoxVersion ∧
    (forceVisibility rawImport box).Variables = box.Variables ∧
    (forceVisibility rawImport box).Icon = box.Icon ∧
    (forceVisibility rawImport box).IconMetadata = box.IconMetadata := by
  rw [forceVisibility_eq]
  simp

theorem reconcile_fields (box : Box) (current : Option Box) (owner : String)
    (asDraft rawImport : Bool) :
    (reconcile box current owner asDraft rawImport).1.ID = box.ID ∧
    (reconcile box current owner asDraft rawImport).1.Owner = box.Owner ∧
    (reconcile box current owner asDraft rawImport).1.Members = box.Members ∧
    (reconcile box current owner asDraft rawImport).1.Variables = box.Variables ∧
    (reconcile box current owner asDraft rawImport).1.Icon = box.Icon ∧
    (reconcile box current owner asDraft rawImport).1.IconMetadata = box.IconMetadata := by
  rw [reconcile_frame]
  simp

theorem reconcile_owner (loc : Box) (current : Option Box) (owner : String)
    (asDraft rawImport : Bool) :
    (normalizeMembers (reconcile (forceVisibility rawImport loc) current owner asDraft
      rawImport).1).Owner = loc.Owner := by
  rw [normalizeMembers_eq]
  simp only []
  rw [(reconcile_fields _ _ _ _ _).2.1, (forceVisibility_fields _ _).2.1]

theorem mergeBox_ok {env : Env} {loc bx : Box} {owner eid : String} {asDraft rawImport : Bool}
    {h tr : List Call} (hr : mergeBox env loc owner asDraft rawImport h = ⟨tr, .ok (bx, eid)⟩) :
    ∃ cur tr1 l, lookupCurrent env (forceVisibility rawImport loc) h = ⟨tr1, .ok cur⟩ ∧
      tr = tr1 ++ l ∧ (∀ c ∈ l, ∃ x, c = .getTokenSubject x) ∧
      ∀ m, m = reconcile (forceVisibility rawImport loc) cur owner asDraft rawImport →
        eid = m.2.1 ∧
        bx = { normalizeMembers m.1 with Owner := bx.Owner, Schema := bx.Schema } ∧
        (m.2.2 ≠ "" → bx.Owner = m.2.2) ∧
        (m.2.2 = "" → loc.Owner ≠ "" → bx.Owner = loc.Owner) ∧
        (m.2.2 = "" → loc.Owner = "" → Call.getTokenSubject (some bx.Owner) ∈ tr) := by
  unfold mergeBox at hr
  obtain ⟨cur, tr1, hcur, hr⟩ := bind_run_ok hr
  obtain ⟨b1, tr2, hb1, hr⟩ := bind_run_ok hr
  obtain ⟨b2, tr3, hb2, hr⟩ := bind_run_ok hr
  rw [pure_apply] at hr
  injection hr with htr hr
  injection hr with hr
  injection hr with hbx heid
  subst hbx htr
  obtain ⟨l, hl1, hl2⟩ := (resolveOwner_sound env _ _).run hb1
  obtain ⟨l', hl1', hl2'⟩ := (defaultSchema_sound (fun _ => False) env b1).run hb2
  have hl' : l' = [] := by
    cases l' with
    | nil => rfl
    | cons c l' => exact absurd (hl2' c (List.mem_cons_self _ _)) id
  subst hl'
  rw [List.append_nil] at hl1'
  subst hl1'
  refine ⟨cur, tr1, l, hcur, hl1, hl2, ?_⟩
  intro m hm
  subst hm
  have hres := congrArg Run.result hb1
  have htrace := congrArg Run.trace hb1
  simp only [] at hres htrace
  obtain ⟨f1, f2, f3, f4⟩ := resolveOwner_ok hres
  have g := defaultSchema_ok (congrArg Run.result hb2)
  rw [htrace] at f4
  rw [reconcile_owner] at f3 f4
  refine ⟨heid.symm, ?_, ?_, ?_, ?_⟩
  · rw [g, f1]
  · intro h0; rw [g]; exact f2 h0
  · intro h0 h1; rw [g]; exact f3 h0 h1
  · intro h0 h1; rw [g]; exact f4 h0 h1

theorem ioReadFile_ok {env : Env} {p : String} {onErr : String → ImportError}
    {h tr : List Call} {b : Bytes} (hr : ioReadFile env p onErr h = ⟨tr, .ok b⟩) :
    env.readFile p = .ok b ∧ tr = h ++ [.readFile p (some b)] := by
  unfold ioReadFile at hr
  cases hf : env.readFile p with
  | error s => rw [hf] at hr; simp [Except.mapError] at hr
  | ok c =>
    rw [hf] at hr
    simp [Except.mapError, Except.toOption] at hr
    obtain ⟨h1, h2⟩ := hr
    subst h2
    exact ⟨rfl, h1.symm⟩

theorem clientUploadFile_ok {env : Env} {name : String} {b : Bytes}
    {onErr : String → ImportError} {h tr : List Call} {res : BlobResponse}
    (hr : clientUploadFile env name b onErr h = ⟨tr, .ok res⟩) :
    tr = h ++ [.uploadFile name b (some res)] := by
  unfold clientUploadFile at hr
  cases hf : env.uploadFile h name b with
  | error s => rw [hf] at hr; simp [Except.mapError] at hr
  | ok c =>
    rw [hf] at hr
    simp [Except.mapError, Except.toOption] at hr
    obtain ⟨h1, h2⟩ := hr
    subst h2
    exact h1.symm

theorem VariableUploaded.mono_trace {env : Env} {root : String} {tr tr' : List Call} {v w : Variable}
    (hv : VariableUploaded env root tr v w) (hsub : ∀ c ∈ tr, c ∈ tr') :
    VariableUploaded env root tr' v w := by
  unfold VariableUploaded at hv ⊢
  split
  · rename_i hc
    rw [if_pos hc] at hv
    obtain ⟨content, res, h1, h2, h3⟩ := hv
    exact ⟨content, res, h1, hsub _ h2, h3⟩
  · rename_i hc
    rw [if_neg hc] at hv
    exact hv

theorem uploadVariables_ok (env : Env) (root : String) (vars : List Variable) :
    ∀ (h tr : List Call) (vars' : List Variable),
      uploadVariables env root vars h = ⟨tr, .ok vars'⟩ →
      List.Forall₂ (VariableUploaded env root tr) vars vars' := by
  induction vars with
  | nil =>
    intro h tr vars' hr
    simp only [uploadVariables, pure_apply] at hr
    injection hr with h1 h2
    injection h2 with h2
    subst h2
    exact List.Forall₂.nil
  | cons v rest ih =>
    intro h tr vars' hr
    unfold uploadVariables at hr
    by_cases hc : v.Typ = "File" ∧ v.Value ≠ ""
    · rw [if_pos hc] at hr
      obtain ⟨b, t1, hb, hr⟩ := bind_run_ok hr
      obtain ⟨res, t2, hres, hr⟩ := bind_run_ok hr
      obtain ⟨rest', t3, hrest, hr⟩ := bind_run_ok hr
      rw [pure_apply] at hr
      injection hr with h1 h2
      injection h2 with h2
      subst h1 h2
      obtain ⟨hread, ht1⟩ := ioReadFile_ok hb
      have ht2 := clientUploadFile_ok hres
      obtain ⟨l, hl, -⟩ := (uploadVariables_sound env root rest).run hrest
      refine List.Forall₂.cons ?_ (ih _ _ _ hrest)
      unfold VariableUploaded
      rw [if_pos hc]
      refine ⟨b, res, hread, ?_, rfl⟩
      rw [hl, ht2]
      simp
    · rw [if_neg hc] at hr
      obtain ⟨rest', t3, hrest, hr⟩ := bind_run_ok hr
      rw [pure_apply] at hr
      injection hr with h1 h2
      injection h2 with h2
      subst h1 h2
      refine List.Forall₂.cons ?_ (ih _ _ _ hrest)
      unfold VariableUploaded
      rw [if_neg hc]

theorem uploadEvents_ok {env : Env} {root : String} {box b : Box} {h tr : List Call}
    (hr : uploadEvents env root box h = ⟨tr, .ok b⟩) : b = { box with Events := b.Events } := by
  unfold uploadEvents at hr
  by_cases hc : box.Schema.String = env.ScriptBoxSchema
  · rw [if_pos hc] at hr
    obtain ⟨ev, t1, _, hr⟩ := bind_run_ok hr
    rw [pure_apply] at hr
    injection hr with h1 h2
    injection h2 with h2
    subst h2
    rfl
  · rw [if_neg hc] at hr
    rw [pure_apply] at hr
    injection hr with h1 h2
    injection h2 with h2
    subst h2
    rfl

theorem uploadReadme_ok {env : Env} {root : String} {box b : Box} {h tr : List Call}
    (hr : uploadReadme env root box h = ⟨tr, .ok b⟩) : b = { box with Readme := b.Readme } := by
  unfold uploadReadme at hr
  obtain ⟨st, t1, _, hr⟩ := bind_run_ok hr
  cases st with
  | none =>
    simp only [pure_apply] at hr
    injection hr with h1 h2
    injection h2 with h2
    subst h2
    rfl
  | some d =>
    simp only [] at hr
    obtain ⟨c, t2, _, hr⟩ := bind_run_ok hr
    obtain ⟨res, t3, _, hr⟩ := bind_run_ok hr
    rw [pure_apply] at hr
    injection hr with h1 h2
    injection h2 with h2
    subst h2
    rfl

theorem IconUploaded.icon_mono {env : Env} {root : String} {tr tr' : List Call} {icon : String}
    {md : Option IconMetadata} {b : Box} (hi : IconUploaded env root tr icon md b)
    (hsub : ∀ c ∈ tr, c ∈ tr') : IconUploaded env root tr' icon md b := by
  obtain ⟨h1, h2, h3⟩ := hi
  refine ⟨fun im a1 a2 a3 => ?_, h2, fun a1 a2 => ?_⟩
  · obtain ⟨g1, content, res, g2, g3, g4⟩ := h1 im a1 a2 a3
    exact ⟨g1, content, res, g2, hsub _ g3, g4⟩
  · obtain ⟨g1, content, res, g2, g3, g4⟩ := h3 a1 a2
    exact ⟨g1, content, res, g2, hsub _ g3, g4⟩

theorem uploadFlatIcon_ok {env : Env} {root : String} {box b : Box} {h tr : List Call}
    (hr : uploadFlatIcon env root box h = ⟨tr, .ok b⟩) :
    b = { box with Icon := b.Icon } ∧
    (box.Icon ≠ "" → ∃ content res,
      env.readFile (pathJoin [root, box.Icon]) = .ok content ∧
      Call.uploadFile (pathBase box.Icon) content (some res) ∈ tr ∧
      b.Icon = res.Url.String) := by
  unfold uploadFlatIcon at hr
  by_cases hc : box.Icon ≠ ""
  · rw [if_pos hc] at hr
    obtain ⟨c, t1, hread, hr⟩ := bind_run_ok hr
    obtain ⟨res, t2, hup, hr⟩ := bind_run_ok hr
    rw [pure_apply] at hr
    injection hr with h1 h2
    injection h2 with h2
    subst h1 h2
    refine ⟨rfl, fun _ => ⟨c, res, (ioReadFile_ok hread).1, ?_, rfl⟩⟩
    rw [clientUploadFile_ok hup]
    simp
  · rw [if_neg hc] at hr
    rw [pure_apply] at hr
    injection hr with h1 h2
    injection h2 with h2
    subst h2
    exact ⟨rfl, fun h0 => absurd h0 hc⟩

theorem uploadIcon_ok {env : Env} {root : String} {box b : Box} {h tr : List Call}
    (hr : uploadIcon env root box h = ⟨tr, .ok b⟩) :
    b = { box with Icon := b.Icon, IconMetadata := b.IconMetadata } ∧
    IconUploaded env root tr box.Icon box.IconMetadata b := by
  unfold uploadIcon at hr
  cases hm : box.IconMetadata with
  | none =>
    rw [hm] at hr
    simp only [] at hr
    obtain ⟨f1, f2⟩ := uploadFlatIcon_ok hr
    have hmd : b.IconMetadata = none := by rw [f1]; exact hm
    refine ⟨by rw [f1], ?_, ?_, ?_⟩
    · intro im a1; simp at a1
    · intro im a1; simp at a1
    · intro _ a2
      exact ⟨hmd, f2 a2⟩
  | some im =>
    rw [hm] at hr
    simp only [] at hr
    by_cases hz : im.Image.IsZero = true
    · simp only [hz, Bool.not_true, Bool.false_eq_true, if_false] at hr
      obtain ⟨f1, f2⟩ := uploadFlatIcon_ok hr
      have hmd : b.IconMetadata = some im := by rw [f1]; exact hm
      refine ⟨by rw [f1], ?_, ?_, ?_⟩
      · intro im' a1 a2
        simp at a1; subst a1
        rw [hz] at a2; simp at a2
      · intro im' a1 a2
        simp at a1; subst a1
        rw [hz] at a2; simp at a2
      · intro _ a2
        exact ⟨hmd, f2 a2⟩
    · have hz' : im.Image.IsZero = false := by simpa using hz
      simp only [hz', Bool.not_false, if_true] at hr
      by_cases hp : stringsHasPrefix im.Image.Path "images/" = true
      · simp only [hp, Bool.not_true, Bool.false_eq_true, if_false, pure_apply] at hr
        injection hr with h1 h2
        injection h2 with h2
        subst h2
        refine ⟨rfl, ?_, ?_, ?_⟩
        · intro im' a1 _ a3
          simp at a1; subst a1
          rw [hp] at a3; simp at a3
        · intro im' _ _ _
          exact ⟨rfl, hm⟩
        · rintro (a1 | ⟨im', a1, a2⟩)
          · simp at a1
          · simp at a1; subst a1
            rw [hz'] at a2; simp at a2
      · have hp' : stringsHasPrefix im.Image.Path "images/" = false := by simpa using hp
        simp only [hp', Bool.not_false, if_true] at hr
        obtain ⟨c, t1, hread, hr⟩ := bind_run_ok hr
        obtain ⟨res, t2, hup, hr⟩ := bind_run_ok hr
        rw [pure_apply] at hr
        injection hr with h1 h2
        injection h2 with h2
        subst h1 h2
        refine ⟨rfl, ?_, ?_, ?_⟩
        · intro im' a1 _ _
          simp at a1; subst a1
          refine ⟨rfl, c, res, (ioReadFile_ok hread).1, ?_, rfl⟩
          rw [clientUploadFile_ok hup]
          simp
        · intro im' a1 _ a3
          simp at a1; subst a1
          rw [hp'] at a3; simp at a3
        · rintro (a1 | ⟨im', a1, a2⟩)
          · simp at a1
          · simp at a1; subst a1
            rw [hz'] at a2; simp at a2

theorem uploadArtifacts_ok {env : Env} {root : String} {box art : Box} {h tr : List Call}
    (hr : uploadArtifacts env root box h = ⟨tr, .ok art⟩) :
    art = { box with Events := art.Events, Variables := art.Variables, Icon := art.Icon,
                     IconMetadata := art.IconMetadata, Readme := art.Readme } ∧
    List.Forall₂ (VariableUploaded env root tr) box.Variables art.Variables ∧
    IconUploaded env root tr box.Icon box.IconMetadata art ∧
    ∃ l, tr = h ++ l ∧ ∀ c ∈ l, c.isArtifact = true := by
  have hsound := (uploadArtifacts_sound env root box).run hr
  unfold uploadArtifacts at hr
  obtain ⟨b1, t1, he, hr⟩ := bind_run_ok hr
  obtain ⟨vars, t2, hv, hr⟩ := bind_run_ok hr
  obtain ⟨b2, t3, hi, hr⟩ := bind_run_ok hr
  have e1 := uploadEvents_ok he
  have e2 := uploadVariables_ok _ _ _ _ _ _ hv
  obtain ⟨e3, e4⟩ := uploadIcon_ok hi
  have e5 := uploadReadme_ok hr
  obtain ⟨l3, hl3, -⟩ := (uploadIcon_sound env root _).run hi
  obtain ⟨l4, hl4, -⟩ := (uploadReadme_sound env root _).run hr
  have hsub2 : ∀ c ∈ t2, c ∈ tr := by
    intro c hc; rw [hl4, hl3]; simp [hc]
  have hsub3 : ∀ c ∈ t3, c ∈ tr := by
    intro c hc; rw [hl4]; simp [hc]
  have hvars : art.Variables = vars := by rw [e5, e3]
  have hb1v : b1.Variables = box.Variables := by rw [e1]
  refine ⟨?_, ?_, ?_, hsound⟩
  · rw [e5, e3, e1]
  · rw [hvars, ← hb1v]
    exact List.Forall₂.imp (fun v w hvw => hvw.mono_trace hsub2) e2
  · have e4' := e4.icon_mono hsub3
    simp only [] at e4'
    have hi1 : b1.Icon = box.Icon := by rw [e1]
    have hi2 : b1.IconMetadata = box.IconMetadata := by rw [e1]
    rw [hi1, hi2] at e4'
    obtain ⟨g1, g2, g3⟩ := e4'
    have hic : art.Icon = b2.Icon := by rw [e5]
    have him : art.IconMetadata = b2.IconMetadata := by rw [e5]
    unfold IconUploaded
    rw [hic, him]
    exact ⟨g1, g2, g3⟩

theorem submitArgs_eq (env : Env) (art : Box) (e : String) :
    (submitArgs env art e).1 = { art with Created := (submitArgs env art e).1.Created } ∧
    (submitArgs env art e).2 =
      match art.BoxVersion with
      | some v => if v.Box = art.ID then e else uuidString v.Box
      | none => e := by
  unfold submitArgs
  cases hv : art.BoxVersion with
  | none => exact ⟨rfl, rfl⟩
  | some v =>
    by_cases hb : v.Box = art.ID
    · simp [uuidEqual, hb]
      rw [← hv]
    · simp [uuidEqual, hb]
      rw [← hv]

theorem reconcileBox_ok {env : Env} {loc bx : Box} {owner eid : String} {asDraft rawImport : Bool}
    {h tr : List Call}
    (hr : reconcileBox env loc owner asDraft rawImport h = ⟨tr, .ok (bx, eid)⟩) :
    ¬(asDraft = true ∧ loc.ID = uuidNil) ∧
    mergeBox env loc owner asDraft rawImport h = ⟨tr, .ok (bx, eid)⟩ := by
  unfold reconcileBox at hr
  by_cases hc : (asDraft && uuidEqual uuidNil loc.ID) = true
  · rw [if_pos hc, fail_apply] at hr
    injection hr with h1 h2
    simp at h2
  · rw [if_neg hc] at hr
    refine ⟨?_, hr⟩
    rintro ⟨h1, h2⟩
    apply hc
    simp [h1, h2, uuidEqual]

theorem prepareBox_ok {env : Env} {boxDir owner eid : String} {asDraft rawImport : Bool}
    {b : Box} {h tr : List Call}
    (hr : prepareBox env boxDir owner asDraft rawImport h = ⟨tr, .ok (b, eid)⟩) :
    ∃ root loc t1 bx eid0 t2 art,
      loadBox env boxDir h = ⟨t1, .ok (root, loc)⟩ ∧
      reconcileBox env loc owner asDraft rawImport t1 = ⟨t2, .ok (bx, eid0)⟩ ∧
      uploadArtifacts env root bx t2 = ⟨tr, .ok art⟩ ∧
      (b, eid) = submitArgs env art eid0 := by
  unfold prepareBox at hr
  obtain ⟨⟨root, loc⟩, t1, h1, hr⟩ := bind_run_ok hr
  obtain ⟨⟨bx, eid0⟩, t2, h2, hr⟩ := bind_run_ok hr
  obtain ⟨art, t3, h3, hr⟩ := bind_run_ok hr
  rw [pure_apply] at hr
  injection hr with g1 g2
  injection g2 with g2
  subst g1
  exact ⟨root, loc, t1, bx, eid0, t2, art, h1, h2, h3, g2.symm⟩

theorem importBox_trace (env : Env) (boxDir owner : String) (asDraft rawImport : Bool) :
    (∃ e, (prepareBox env boxDir owner asDraft rawImport []).result = .error e ∧
      importBox env boxDir owner asDraft rawImport =
        ⟨(prepareBox env boxDir owner asDraft rawImport []).trace, .error e⟩) ∨
    ∃ b eid tr c, prepareBox env boxDir owner asDraft rawImport [] = ⟨tr, .ok (b, eid)⟩ ∧
      (importBox env boxDir owner asDraft rawImport).trace = tr ++ [c] ∧
      (∃ res, c = .uploadBox b eid res ∨ c = .uploadApplianceBox b eid res) ∧
      (rawImport = true → ∃ res, c = .uploadApplianceBox b eid res) ∧
      (rawImport = false → ∃ res, c = .uploadBox b eid res) ∧
      ∀ e, (importBox env boxDir owner asDraft rawImport).result = .error e →
        ∃ s, e = .submit s := by
  unfold importBox importBoxM
  rw [bind_apply]
  cases hp : (prepareBox env boxDir owner asDraft rawImport []).result with
  | error e => exact Or.inl ⟨e, rfl, rfl⟩
  | ok args =>
    right
    obtain ⟨b, eid⟩ := args
    refine ⟨b, eid, (prepareBox env boxDir owner asDraft rawImport []).trace, ?_⟩
    simp only [uploaderFn]
    cases rawImport with
    | true =>
      refine ⟨_, by rw [← hp], rfl, ⟨_, Or.inr rfl⟩, fun _ => ⟨_, rfl⟩, fun h0 => by simp at h0, ?_⟩
      intro e he
      simp only [if_true] at he
      cases hu : env.uploadApplianceBox
        (prepareBox env boxDir owner asDraft true []).trace b eid with
      | error s => rw [hu] at he; simp [Except.mapError] at he; exact ⟨s, he.symm⟩
      | ok r => rw [hu] at he; simp [Except.mapError] at he
    | false =>
      refine ⟨_, by rw [← hp], rfl, ⟨_, Or.inl rfl⟩, fun h0 => by simp at h0, fun _ => ⟨_, rfl⟩, ?_⟩
      intro e he
      simp only [Bool.false_eq_true, if_false] at he
      cases hu : env.uploadBox
        (prepareBox env boxDir owner asDraft false []).trace b eid with
      | error s => rw [hu] at he; simp [Except.mapError] at he; exact ⟨s, he.symm⟩
      | ok r => rw [hu] at he; simp [Except.mapError] at he

theorem importBox_submits {env : Env} {boxDir owner eid : String} {asDraft rawImport : Bool}
    {b : Box} (hs : Submits (importBox env boxDir owner asDraft rawImport) b eid) :
    ∃ tr c, prepareBox env boxDir owner asDraft rawImport [] = ⟨tr, .ok (b, eid)⟩ ∧
      (importBox env boxDir owner asDraft rawImport).trace = tr ++ [c] ∧ c.isSubmit = true := by
  have hsound := prepareBox_sound env boxDir owner asDraft rawImport
  obtain ⟨res, hs⟩ := hs
  have hnot : ∀ (c : Call) (tr : List Call) (r : Except ImportError (Box × String)),
      prepareBox env boxDir owner asDraft rawImport [] = ⟨tr, r⟩ → c ∈ tr →
      c.isSubmit = false := by
    intro c tr r hrun hc
    obtain ⟨l, hl, hl2⟩ := hsound.run hrun
    rw [hl] at hc
    simp at hc
    exact hl2 c hc
  rcases importBox_trace env boxDir owner asDraft rawImport with
    ⟨e, _, he2⟩ | ⟨b', eid', tr, c, hp, ht, ⟨res', hc⟩, -⟩
  · rw [he2] at hs
    simp only [] at hs
    rcases hs with hs | hs
    · have := hnot _ _ _ rfl hs
      simp [Call.isSubmit] at this
    · have := hnot _ _ _ rfl hs
      simp [Call.isSubmit] at this
  · rw [ht] at hs
    have key : ∀ d : Call, d.isSubmit = true → d ∈ tr ++ [c] → d = c := by
      intro d hd hmem
      rcases List.mem_append.1 hmem with hm | hm
      · have := hnot _ _ _ hp hm
        rw [hd] at this
        simp at this
      · simpa using hm
    have hcs : c.isSubmit = true := by
      rcases hc with hc | hc <;> rw [hc] <;> rfl
    rcases hs with hs | hs
    · have := key (.uploadBox b eid res) rfl hs
      rcases hc with hc | hc
      · rw [hc] at this
        injection this with e1 e2 e3
        subst e1 e2
        exact ⟨tr, c, hp, ht, hcs⟩
      · rw [hc] at this
        simp at this
    · have := key (.uploadApplianceBox b eid res) rfl hs
      rcases hc with hc | hc
      · rw [hc] at this
        simp at this
      · rw [hc] at this
        injection this with e1 e2 e3
        subst e1 e2
        exact ⟨tr, c, hp, ht, hcs⟩

theorem submits_inv {env : Env} {boxDir owner eid root : String} {asDraft rawImport : Bool}
    {b loc : Box} (hs : Submits (importBox env boxDir owner asDraft rawImport) b eid)
    (hl : (loadBox env boxDir []).result = .ok (root, loc)) :
    ∃ cur : Option Box,
      (loc.ID = uuidNil → cur = none) ∧
      (∀ id x, Call.getBox id x ∈ (importBox env boxDir owner asDraft rawImport).trace →
        loc.ID ≠ uuidNil ∧ x = cur) ∧
      ¬(asDraft = true ∧ loc.ID = uuidNil) ∧
      ∀ m, m = reconcile (forceVisibility rawImport loc) cur owner asDraft rawImport →
        b = { normalizeMembers m.1 with
              Owner := b.Owner, Schema := b.Schema, Events := b.Events,
              Variables := b.Variables, Icon := b.Icon, IconMetadata := b.IconMetadata,
              Readme := b.Readme, Created := b.Created } ∧
        eid = (match b.BoxVersion with
          | some v => if v.Box = b.ID then m.2.1 else uuidString v.Box
          | none => m.2.1) ∧
        (m.2.2 ≠ "" → b.Owner = m.2.2) ∧
        (m.2.2 = "" → loc.Owner ≠ "" → b.Owner = loc.Owner) ∧
        (m.2.2 = "" → loc.Owner = "" → Call.getTokenSubject (some b.Owner) ∈
          (importBox env boxDir owner asDraft rawImport).trace) ∧
        List.Forall₂
          (VariableUploaded env root (importBox env boxDir owner asDraft rawImport).trace)
          loc.Variables b.Variables ∧
        IconUploaded env root (importBox env boxDir owner asDraft rawImport).trace
          loc.Icon loc.IconMetadata b := by
  obtain ⟨tr, c, hp, ht, hcs⟩ := importBox_submits hs
  obtain ⟨root', loc', t1, bx, eid0, t2, art, h1, h2, h3, h4⟩ := prepareBox_ok hp
  have hl' := congrArg Run.result h1
  rw [hl] at hl'
  injection hl' with hl'
  injection hl' with hroot hloc
  subst hroot hloc
  obtain ⟨hnd, hm⟩ := reconcileBox_ok h2
  obtain ⟨cur, tr1, l, hcur, htr, hl2, hmm⟩ := mergeBox_ok hm
  obtain ⟨l1, hl1, hlocal⟩ := (loadBox_sound env boxDir).run h1
  obtain ⟨a1, a2, a3, la, hla, hart⟩ := uploadArtifacts_ok h3
  have hsub : ∀ d ∈ tr, d ∈ (importBox env boxDir owner asDraft rawImport).trace := by
    intro d hd; rw [ht]; simp [hd]
  have hsub2 : ∀ d ∈ t2, d ∈ (importBox env boxDir owner asDraft rawImport).trace := by
    intro d hd; apply hsub; rw [hla]; simp [hd]
  refine ⟨cur, ?_, ?_, hnd, ?_⟩
  · intro hid
    have hid' : (forceVisibility rawImport loc).ID = uuidNil := by
      rw [(forceVisibility_fields _ _).1]; exact hid
    have := lookupCurrent_nil env _ t1 hid'
    rw [this] at hcur
    injection hcur with _ g
    injection g with g
    exact g.symm
  · intro id x hx
    rw [ht, hla, htr] at hx
    have hx' : Call.getBox id x ∈ tr1 := by
      simp only [List.mem_append, List.mem_singleton] at hx
      rcases hx with ((hx | hx) | hx) | hx
      · exact hx
      · obtain ⟨u, hu⟩ := hl2 _ hx
        simp at hu
      · have := hart _ hx
        simp [Call.isArtifact] at this
      · rw [← hx] at hcs
        simp [Call.isSubmit] at hcs
    by_cases hid : loc.ID = uuidNil
    · have hid' : (forceVisibility rawImport loc).ID = uuidNil := by
        rw [(forceVisibility_fields _ _).1]; exact hid
      have := lookupCurrent_nil env _ t1 hid'
      rw [this] at hcur
      injection hcur with g _
      rw [← g, hl1] at hx'
      simp at hx'
      have := hlocal _ hx'
      simp [Call.isLocal] at this
    · have hid' : (forceVisibility rawImport loc).ID ≠ uuidNil := by
        rw [(forceVisibility_fields _ _).1]; exact hid
      have := lookupCurrent_id env _ t1 hid'
      rw [this] at hcur
      injection hcur with g g'
      injection g' with g'
      rw [← g, hl1] at hx'
      simp only [List.append_nil, List.nil_append, List.mem_append, List.mem_singleton] at hx'
      rcases hx' with hx' | hx'
      · have := hlocal _ hx'
        simp [Call.isLocal] at this
      · injection hx' with e1 e2
        exact ⟨hid, by rw [e2, ← g']; simp [hl1]⟩
  · intro m hmeq
    obtain ⟨m1, m2, m3, m4, m5⟩ := hmm m hmeq
    obtain ⟨s1, s2⟩ := submitArgs_eq env art eid0
    rw [← h4] at s1 s2
    simp only [] at s1 s2
    have hbv : b.BoxVersion = art.BoxVersion := by rw [s1]
    have hbid : b.ID = art.ID := by rw [s1]
    have hbo : b.Owner = bx.Owner := by rw [s1, a1]
    have hbvars : b.Variables = art.Variables := by rw [s1]
    have hbx1 : bx.Variables = loc.Variables := by
      rw [m2, normalizeMembers_eq]
      simp only []
      subst hmeq
      rw [(reconcile_fields _ _ _ _ _).2.2.2.1, (forceVisibility_fields _ _).2.2.2.2.1]
    have hbx2 : bx.Icon = loc.Icon := by
      rw [m2, normalizeMembers_eq]
      simp only []
      subst hmeq
      rw [(reconcile_fields _ _ _ _ _).2.2.2.2.1, (forceVisibility_fields _ _).2.2.2.2.2.1]
    have hbx3 : bx.IconMetadata = loc.IconMetadata := by
      rw [m2, normalizeMembers_eq]
      simp only []
      subst hmeq
      rw [(reconcile_fields _ _ _ _ _).2.2.2.2.2, (forceVisibility_fields _ _).2.2.2.2.2.2]
    refine ⟨?_, ?_, ?_, ?_, ?_, ?_, ?_⟩
    · rw [s1, a1, m2]
    · rw [s2, hbv, hbid, m1]
    · intro h0; rw [hbo]; exact m3 h0
    · intro h0 h1'; rw [hbo]; exact m4 h0 h1'
    · intro h0 h1'; rw [hbo]; exact hsub2 _ (m5 h0 h1')
    · rw [hbvars, ← hbx1]
      exact List.Forall₂.imp (fun v w hvw => hvw.mono_trace hsub) a2
    · have := a3.icon_mono hsub
      rw [hbx2, hbx3] at this
      obtain ⟨g1, g2, g3⟩ := this
      have hic : b.Icon = art.Icon := by rw [s1]
      have him : b.IconMetadata = art.IconMetadata := by rw [s1]
      unfold IconUploaded
      rw [hic, him]
      exact ⟨g1, g2, g3⟩

theorem Sound.error {α : Type} {P : Call → Prop} {E : ImportError → Prop} {m : M α}
    (hm : Sound P E m) {h : List Call} {e : ImportError} (he : (m h).result = .error e) :
    E e := by
  obtain ⟨_, _, _, _, h4⟩ := hm h
  exact h4 e he

theorem submits_of_prepare {env : Env} {boxDir owner eid : String} {asDraft rawImport : Bool}
    {b : Box} (hp : (prepareBox env boxDir owner asDraft rawImport []).result = .ok (b, eid)) :
    Submits (importBox env boxDir owner asDraft rawImport) b eid := by
  rcases importBox_trace env boxDir owner asDraft rawImport with
    ⟨e, he, _⟩ | ⟨b', eid', tr, c, hp', ht, ⟨res, hc⟩, -⟩
  · rw [he] at hp
    simp at hp
  · have := congrArg Run.result hp'
    rw [hp] at this
    injection this with this
    injection this with e1 e2
    subst e1 e2
    refine ⟨res, ?_⟩
    rw [ht]
    rcases hc with hc | hc
    · left; simp [hc]
    · right; simp [hc]

theorem prepareBox_not_draft {env : Env} {boxDir owner root : String} {asDraft rawImport : Bool}
    {loc : Box} (hl : (loadBox env boxDir []).result = .ok (root, loc))
    (hid : loc.ID ≠ uuidNil) :
    (prepareBox env boxDir owner asDraft rawImport []).result ≠ .error .draftWithoutID := by
  intro he
  unfold prepareBox at he
  rcases bind_result_error he with h1 | ⟨loaded, h1, he⟩
  · rw [hl] at h1
    simp at h1
  · rw [hl] at h1
    injection h1 with h1
    subst h1
    rcases bind_result_error he with h2 | ⟨merged, _, he⟩
    · simp only [] at h2
      unfold reconcileBox at h2
      have hne : uuidEqual uuidNil loc.ID = false := by
        simp only [uuidEqual, beq_eq_false_iff_ne]
        exact fun hh => hid hh.symm
      rw [hne, Bool.and_false] at h2
      simp only [Bool.false_eq_true, if_false] at h2
      exact (mergeBox_sound _ _ _ _ _).error h2 rfl
    · rcases bind_result_error he with h3 | ⟨art, _, he⟩
      · exact (uploadArtifacts_sound _ _ _).error h3 rfl
      · simp [pure_apply] at he

/-! ## The calls of the loop over the variables -/

theorem bind_run_intro {α β : Type} {m : M α} {f : α → M β} {h t : List Call} {a : α}
    (hm : m h = ⟨t, .ok a⟩) : (m >>= f) h = f a t := by
  rw [bind_apply, hm]

theorem clientUploadFile_run {env : Env} {name : String} {b : Bytes}
    {onErr : String → ImportError} {h tr : List Call} {res : BlobResponse}
    (hr : clientUploadFile env name b onErr h = ⟨tr, .ok res⟩) :
    env.uploadFile h name b = .ok res := by
  unfold clientUploadFile at hr
  cases hf : env.uploadFile h name b with
  | error s => rw [hf] at hr; simp [Except.mapError] at hr
  | ok c =>
    rw [hf] at hr
    simp [Except.mapError, Except.toOption] at hr
    rw [hr.2]

theorem uploadVariables_calls (env : Env) (root : String) (vars : List Variable) :
    ∀ (h tr : List Call) (vars' : List Variable),
      uploadVariables env root vars h = ⟨tr, .ok vars'⟩ →
      ∃ seg, tr = h ++ seg ∧ VariableCalls env root h vars vars' seg := by
  induction vars with
  | nil =>
    intro h tr vars' hr
    simp only [uploadVariables, pure_apply] at hr
    injection hr with h1 h2
    injection h2 with h2
    subst h1 h2
    exact ⟨[], by simp, VariableCalls.done h⟩
  | cons v rest ih =>
    intro h tr vars' hr
    unfold uploadVariables at hr
    by_cases hc : v.Typ = "File" ∧ v.Value ≠ ""
    · rw [if_pos hc] at hr
      obtain ⟨b, t1, hb, hr⟩ := bind_run_ok hr
      obtain ⟨res, t2, hres, hr⟩ := bind_run_ok hr
      obtain ⟨rest', t3, hrest, hr⟩ := bind_run_ok hr
      rw [pure_apply] at hr
      injection hr with h1 h2
      injection h2 with h2
      subst h1 h2
      obtain ⟨hread, ht1⟩ := ioReadFile_ok hb
      have ht2 := clientUploadFile_ok hres
      have hup := clientUploadFile_run hres
      subst ht1
      subst ht2
      obtain ⟨seg, hseg, hcalls⟩ := ih _ _ _ hrest
      refine ⟨_ :: _ :: seg, ?_, VariableCalls.upload h v rest rest' seg b res hc.1 hc.2 hread
        hup (by simpa using hcalls)⟩
      rw [hseg]
      simp
    · rw [if_neg hc] at hr
      obtain ⟨rest', t3, hrest, hr⟩ := bind_run_ok hr
      rw [pure_apply] at hr
      injection hr with h1 h2
      injection h2 with h2
      subst h1 h2
      obtain ⟨seg, hseg, hcalls⟩ := ih _ _ _ hrest
      exact ⟨seg, hseg, VariableCalls.keep h v rest rest' seg hc hcalls⟩

theorem VariableCalls.count_uploads {env : Env} {root : String} {h seg : List Call}
    {vars vars' : List Variable} (hv : VariableCalls env root h vars vars' seg) :
    seg.countP Call.isUpload = vars.countP Variable.isFileToUpload ∧
    seg.length = 2 * vars.countP Variable.isFileToUpload := by
  induction hv with
  | done h => simp
  | keep h v vs ws seg hc _ ih =>
    have hp : v.isFileToUpload = false := by
      unfold Variable.isFileToUpload
      exact decide_eq_false hc
    rw [List.countP_cons, hp]
    simpa using ih
  | upload h v vs ws seg content res h1 h2 _ _ _ ih =>
    have hp : v.isFileToUpload = true := by
      unfold Variable.isFileToUpload
      exact decide_eq_true ⟨h1, h2⟩
    rw [List.countP_cons, List.countP_cons, List.countP_cons, hp, ih.1]
    refine ⟨by simp [Call.isUpload], ?_⟩
    rw [List.length_cons, List.length_cons, ih.2]
    simp
    omega

theorem uploadArtifacts_steps {env : Env} {root : String} {box art : Box} {h tr : List Call}
    (hr : uploadArtifacts env root box h = ⟨tr, .ok art⟩) :
    ∃ bE t3 vars t4 b2 t5,
      uploadEvents env root box h = ⟨t3, .ok bE⟩ ∧
      uploadVariables env root bE.Variables t3 = ⟨t4, .ok vars⟩ ∧
      uploadIcon env root { bE with Variables := vars } t4 = ⟨t5, .ok b2⟩ ∧
      uploadReadme env root b2 t5 = ⟨tr, .ok art⟩ := by
  unfold uploadArtifacts at hr
  obtain ⟨b1, t1, he, hr⟩ := bind_run_ok hr
  obtain ⟨vars, t2, hv, hr⟩ := bind_run_ok hr
  obtain ⟨b2, t3, hi, hr⟩ := bind_run_ok hr
  exact ⟨b1, t1, vars, t2, b2, t3, he, hv, hi, hr⟩

/-! ## The claims -/

/-- C4: in every run that reaches submission the members of the submitted
definition are a non-nil slice holding exactly the members of `box.yaml` (the
empty slice when `box.yaml` lists none); the members of the existing box, which
the environment is free to choose, do not enter. -/
theorem importBox_members (env : Env) (boxDir owner root eid : String)
    (asDraft rawImport : Bool) (loc b : Box)
    (hl : (loadBox env boxDir []).result = .ok (root, loc))
    (hs : Submits (importBox env boxDir owner asDraft rawImport) b eid) :
    b.Members = some loc.Members.elems := by
  obtain ⟨cur, -, -, -, hm⟩ := submits_inv hs hl
  obtain ⟨h1, -⟩ := hm _ rfl
  rw [h1, normalizeMembers_eq]
  simp only []
  rw [(reconcile_fields _ _ _ _ _).2.2.1, (forceVisibility_fields _ _).2.2.1]

/-- The members statement on the sample directory: the existing box lists a
different member, the submitted definition lists the member of `box.yaml`. -/
theorem importBox_members_witness :
    (loadBox (sampleEnv membersLocal (some membersRemote)) "box" []).result
        = .ok ("box", membersLocal) ∧
      Submits (importBox (sampleEnv membersLocal (some membersRemote)) "box" "" false false)
        membersSubmitted (uuidString 5) ∧
      membersSubmitted.Members = some membersLocal.Members.elems :=
  ⟨rfl, submits_of_prepare rfl,
    importBox_members (sampleEnv membersLocal (some membersRemote)) "box" "" "box"
      (uuidString 5) false false membersLocal membersSubmitted rfl (submits_of_prepare rfl)⟩

/-- C10: when `box.yaml` deserializes to a definition without identity,
`importBox` in draft mode returns the error of the draft check and every call
it made went to the file system, none to the catalog; and a definition with an
identity never gets that error, in draft mode or not. -/
theorem importBox_draft_without_id (env : Env) (boxDir owner root : String) (rawImport : Bool)
    (loc : Box) (hl : (loadBox env boxDir []).result = .ok (root, loc)) :
    (loc.ID = uuidNil →
      (importBox env boxDir owner true rawImport).result = .error .draftWithoutID ∧
      ∀ c ∈ (importBox env boxDir owner true rawImport).trace, c.isRemote = false) ∧
    (loc.ID ≠ uuidNil → ∀ asDraft,
      (importBox env boxDir owner asDraft rawImport).result ≠ .error .draftWithoutID) := by
  constructor
  · intro hid
    have hrun : importBox env boxDir owner true rawImport =
        ⟨(loadBox env boxDir []).trace, .error .draftWithoutID⟩ := by
      simp only [importBox, importBoxM, prepareBox, bind_apply, hl, reconcileBox, hid,
        uuidEqual, beq_self_eq_true, Bool.and_self, if_true, fail_apply]
    rw [hrun]
    refine ⟨rfl, ?_⟩
    intro c hc
    obtain ⟨l, h1, h2⟩ := (loadBox_sound env boxDir).trace_eq []
    simp only [] at hc
    rw [h1] at hc
    have := h2 c (by simpa using hc)
    cases c <;> simp_all [Call.isLocal, Call.isRemote]
  · intro hid asDraft he
    rcases importBox_trace env boxDir owner asDraft rawImport with
      ⟨e, h1, h2⟩ | ⟨b, eid, tr, c, -, -, -, -, -, h3⟩
    · rw [h2] at he
      simp only [] at he
      injection he with he
      subst he
      exact prepareBox_not_draft hl hid h1
    · obtain ⟨s, hs⟩ := h3 _ he
      simp at hs

/-- The draft check on the sample directory with a `box.yaml` without identity. -/
theorem importBox_draft_without_id_witness :
    (loadBox (sampleEnv zeroBox none) "box" []).result = .ok ("box", zeroBox) ∧
      (importBox (sampleEnv zeroBox none) "box" "" true false).result
        = .error .draftWithoutID :=
  ⟨rfl, ((importBox_draft_without_id (sampleEnv zeroBox none) "box" "" "box" false zeroBox
    rfl).1 rfl).1⟩

/-- C5: when a file read or a file upload fails during `importBox` (the read
of an event script, of the file of a `File` variable, of an icon or of the
readme, or any `UploadFile`), `importBox` returns an error, no submission call
is in the trace, and the failed call is the last call of the run: nothing, in
particular no further artifact step, runs after it, and no call before it had
failed. -/
theorem importBox_artifact_failure (env : Env) (boxDir owner : String)
    (asDraft rawImport : Bool) (c : Call)
    (hc : c ∈ (importBox env boxDir owner asDraft rawImport).trace)
    (hf : c.isFailedArtifact = true) :
    (∃ e, (importBox env boxDir owner asDraft rawImport).result = .error e) ∧
    (∀ d ∈ (importBox env boxDir owner asDraft rawImport).trace, d.isSubmit = false) ∧
    ∃ pre, (importBox env boxDir owner asDraft rawImport).trace = pre ++ [c] ∧
      ∀ d ∈ pre, d.isFailedArtifact = false := by
  obtain ⟨l, h1, h2, h3, -⟩ := prepareBox_sound env boxDir owner asDraft rawImport []
  rw [List.nil_append] at h1
  have hmem : c ∈ l := by
    rcases importBox_trace env boxDir owner asDraft rawImport with
      ⟨e, -, he⟩ | ⟨b, eid, tr, c', hp, ht, ⟨res, hc'⟩, -⟩
    · rw [he] at hc
      simp only [] at hc
      rw [h1] at hc
      exact hc
    · rw [ht] at hc
      rcases List.mem_append.1 hc with hm | hm
      · have := congrArg Run.trace hp
        simp only [] at this
        rw [← this, h1] at hm
        exact hm
      · simp only [List.mem_singleton] at hm
        rw [hm] at hf
        rcases hc' with hc' | hc' <;> rw [hc'] at hf <;> simp [Call.isFailedArtifact] at hf
  obtain ⟨pre, post, hsplit⟩ := List.append_of_mem hmem
  obtain ⟨hpost, e, he⟩ := h3 pre c post hsplit hf
  subst hpost
  have hrun : importBox env boxDir owner asDraft rawImport = ⟨l, .error e⟩ := by
    simp only [importBox, importBoxM, bind_apply, he, h1]
  rw [hrun]
  refine ⟨⟨e, rfl⟩, fun d hd => h2 d hd, pre, hsplit, ?_⟩
  intro d hd
  by_contra hdf
  have hdf' : d.isFailedArtifact = true := by simpa using hdf
  obtain ⟨p1, p2, hp⟩ := List.append_of_mem hd
  have := (h3 p1 d (p2 ++ [c]) (by rw [hsplit, hp]; simp) hdf').1
  simp at this

/-- The failure statement on the sample directory: the file of a `File` variable
is missing, the failed read ends the run. -/
theorem importBox_artifact_failure_witness :
    (Call.readFile "box/missing.txt" none
        ∈ (importBox (sampleEnv missingFileLocal none) "box" "" false false).trace ∧
      (Call.readFile "box/missing.txt" none).isFailedArtifact = true) ∧
    ((∃ e, (importBox (sampleEnv missingFileLocal none) "box" "" false false).result
        = .error e) ∧
      (∀ d ∈ (importBox (sampleEnv missingFileLocal none) "box" "" false false).trace,
        d.isSubmit = false) ∧
      ∃ pre, (importBox (sampleEnv missingFileLocal none) "box" "" false false).trace
          = pre ++ [Call.readFile "box/missing.txt" none] ∧
        ∀ d ∈ pre, d.isFailedArtifact = false) :=
  have htrace : (importBox (sampleEnv missingFileLocal none) "box" "" false false).trace =
      [.stat "box" true, .stat "box/draft/box.yaml" false,
        .readFile "box/box.yaml" (some [98, 111, 120]),
        .stat "box/events/configure" false, .stat "box/events/install" false,
        .stat "box/events/dispose" false, .readFile "box/missing.txt" none] := rfl
  have hmem : Call.readFile "box/missing.txt" none
      ∈ (importBox (sampleEnv missingFileLocal none) "box" "" false false).trace := by
    rw [htrace]; simp
  ⟨⟨hmem, rfl⟩, importBox_artifact_failure _ "box" "" false false _ hmem rfl⟩

/-- C1 (counterexample): the existing box records no owner and `box.yaml`
names alice; with an empty override the run succeeds and submits the owner
alice, not the (empty) owner of the existing box. -/
theorem importBox_owner_counterexample :
    (importBox (sampleEnv ownerLocal (some ownerlessRemote)) "box" "" false false).result
      = .ok (ownerSubmitted "alice") ∧
    Call.getBox (uuidString 5) (some ownerlessRemote)
      ∈ (importBox (sampleEnv ownerLocal (some ownerlessRemote)) "box" "" false false).trace ∧
    Submits (importBox (sampleEnv ownerLocal (some ownerlessRemote)) "box" "" false false)
      (ownerSubmitted "alice") (uuidString 5) ∧
    (ownerSubmitted "alice").Owner ≠ ownerlessRemote.Owner := by
  have htrace : (importBox (sampleEnv ownerLocal (some ownerlessRemote)) "box" "" false
      false).trace =
      [.stat "box" true, .stat "box/draft/box.yaml" false,
        .readFile "box/box.yaml" (some [98, 111, 120]),
        .getBox (uuidString 5) (some ownerlessRemote),
        .stat "box/events/configure" false, .stat "box/events/install" false,
        .stat "box/events/dispose" false, .stat "box/readme.md" false,
        .uploadBox (ownerSubmitted "alice") (uuidString 5) (some (ownerSubmitted "alice"))] :=
    rfl
  refine ⟨rfl, ?_, submits_of_prepare rfl, by decide⟩
  rw [htrace]
  simp

/-- C1 (amended): in a run with an empty owner override that reaches
submission after `GetBox` returned an existing box, the submitted owner is the
owner of the existing box when that owner is non-empty; when it is empty, the
submitted owner is the owner of `box.yaml` if that is non-empty, and else the
subject returned by `GetTokenSubject`.  The hypothesis on the override keeps
the statement to the runs the claim is about. -/
theorem importBox_owner_of_existing (env : Env) (boxDir owner root eid id : String)
    (asDraft rawImport : Bool) (loc b cur : Box)
    (hl : (loadBox env boxDir []).result = .ok (root, loc))
    (hs : Submits (importBox env boxDir owner asDraft rawImport) b eid)
    (hg : Call.getBox id (some cur) ∈ (importBox env boxDir owner asDraft rawImport).trace)
    (_ho : owner = "") :
    (cur.Owner ≠ "" → b.Owner = cur.Owner) ∧
    (cur.Owner = "" → loc.Owner ≠ "" → b.Owner = loc.Owner) ∧
    (cur.Owner = "" → loc.Owner = "" →
      Call.getTokenSubject (some b.Owner)
        ∈ (importBox env boxDir owner asDraft rawImport).trace) := by
  obtain ⟨c, -, hget, -, hm⟩ := submits_inv hs hl
  obtain ⟨-, hc⟩ := hget id _ hg
  subst hc
  obtain ⟨-, -, h3, h4, h5, -⟩ := hm _ rfl
  rw [(reconcile_some _ _ _ _ _).2.1] at h3 h4 h5
  exact ⟨h3, h4, h5⟩

/-- The owner statement on the sample directory: the existing box is owned by
bob, `box.yaml` names alice, and bob is submitted. -/
theorem importBox_owner_of_existing_witness :
    ((loadBox (sampleEnv ownerLocal (some ownerRemote)) "box" []).result
        = .ok ("box", ownerLocal) ∧
      Submits (importBox (sampleEnv ownerLocal (some ownerRemote)) "box" "" false false)
        (ownerSubmitted "bob") (uuidString 5) ∧
      Call.getBox (uuidString 5) (some ownerRemote)
        ∈ (importBox (sampleEnv ownerLocal (some ownerRemote)) "box" "" false false).trace) ∧
    (ownerSubmitted "bob").Owner = ownerRemote.Owner :=
  have htrace : (importBox (sampleEnv ownerLocal (some ownerRemote)) "box" "" false
      false).trace =
      [.stat "box" true, .stat "box/draft/box.yaml" false,
        .readFile "box/box.yaml" (some [98, 111, 120]),
        .getBox (uuidString 5) (some ownerRemote),
        .stat "box/events/configure" false, .stat "box/events/install" false,
        .stat "box/events/dispose" false, .stat "box/readme.md" false,
        .uploadBox (ownerSubmitted "bob") (uuidString 5) (some (ownerSubmitted "bob"))] :=
    rfl
  have hg : Call.getBox (uuidString 5) (some ownerRemote)
      ∈ (importBox (sampleEnv ownerLocal (some ownerRemote)) "box" "" false false).trace := by
    rw [htrace]; simp
  ⟨⟨rfl, submits_of_prepare rfl, hg⟩,
    (importBox_owner_of_existing (sampleEnv ownerLocal (some ownerRemote)) "box" "" "box"
      (uuidString 5) (uuidString 5) false false ownerLocal (ownerSubmitted "bob") ownerRemote
      rfl (submits_of_prepare rfl) hg rfl).1 (by decide)⟩

/-- C2 (the code at the failing input): the existing box is owned by bob,
`box.yaml` names alice and the caller passes the override carol; the run
succeeds and submits the owner bob: the override is lost. -/
theorem importBox_override_lost_on_update :
    (importBox (sampleEnv ownerLocal (some ownerRemote)) "box" "carol" false false).result
      = .ok (ownerSubmitted "bob") ∧
    Submits (importBox (sampleEnv ownerLocal (some ownerRemote)) "box" "carol" false false)
      (ownerSubmitted "bob") (uuidString 5) ∧
    (ownerSubmitted "bob").Owner ≠ "carol" :=
  ⟨rfl, submits_of_prepare rfl, by decide⟩

/-- C3 (counterexample): `box.yaml` has no identity but declares a version
object that references box 7; the run reaches submission and passes the
identity of box 7, not the empty string. -/
theorem importBox_existingId_counterexample :
    (loadBox (sampleEnv versionedLocal none) "box" []).result = .ok ("box", versionedLocal) ∧
    versionedLocal.ID = uuidNil ∧
    Submits (importBox (sampleEnv versionedLocal none) "box" "" false false)
      versionedSubmitted (uuidString 7) ∧
    uuidString 7 ≠ "" :=
  ⟨rfl, rfl, submits_of_prepare rfl, by decide⟩

/-- C3 (amended): in a run that reaches submission, when the submitted
definition has no version object, or one whose box reference is the identity
of the definition, the existing-identity argument is the empty string if the
definition has no identity or `GetBox` failed, and the identity of the
definition if `GetBox` returned a box; when the version object references
another box, the argument is the identity of that box.  The submitted
definition keeps the identity of `box.yaml`. -/
theorem importBox_existingId (env : Env) (boxDir owner root eid : String)
    (asDraft rawImport : Bool) (loc b : Box)
    (hl : (loadBox env boxDir []).result = .ok (root, loc))
    (hs : Submits (importBox env boxDir owner asDraft rawImport) b eid) :
    b.ID = loc.ID ∧
    (∀ v, b.BoxVersion = some v → v.Box ≠ b.ID → eid = uuidString v.Box) ∧
    ((b.BoxVersion = none ∨ ∃ v, b.BoxVersion = some v ∧ v.Box = b.ID) →
      (loc.ID = uuidNil → eid = "") ∧
      (∀ id, Call.getBox id none ∈ (importBox env boxDir owner asDraft rawImport).trace →
        eid = "") ∧
      (∀ id cur, Call.getBox id (some cur)
        ∈ (importBox env boxDir owner asDraft rawImport).trace → eid = uuidString loc.ID)) := by
  obtain ⟨c, hnil, hget, -, hm⟩ := submits_inv hs hl
  obtain ⟨h1, h2, -⟩ := hm _ rfl
  have hid : b.ID = loc.ID := by
    rw [h1, normalizeMembers_eq]
    simp only []
    rw [(reconcile_fields _ _ _ _ _).1, (forceVisibility_fields _ _).1]
  refine ⟨hid, ?_, ?_⟩
  · intro v hv hne
    rw [hv] at h2
    simp only [if_neg hne] at h2
    exact h2
  · intro hv
    have h2' : eid = (reconcile (forceVisibility rawImport loc) c owner asDraft rawImport).2.1 := by
      rcases hv with hv | ⟨v, hv, hbox⟩
      · rw [hv] at h2
        exact h2
      · rw [hv] at h2
        simp only [if_pos hbox] at h2
        exact h2
    refine ⟨?_, ?_, ?_⟩
    · intro h0
      rw [hnil h0, (reconcile_none _ _ _ _).2.1] at h2'
      exact h2'
    · intro id hg
      obtain ⟨-, hc⟩ := hget id _ hg
      rw [← hc, (reconcile_none _ _ _ _).2.1] at h2'
      exact h2'
    · intro id cur hg
      obtain ⟨-, hc⟩ := hget id _ hg
      rw [← hc, (reconcile_some _ _ _ _ _).1, (forceVisibility_fields _ _).1] at h2'
      exact h2'

/-- The existing-identity statement on the sample directory with a `box.yaml`
that declares a version of another box. -/
theorem importBox_existingId_witness :
    ((loadBox (sampleEnv versionedLocal none) "box" []).result = .ok ("box", versionedLocal) ∧
      Submits (importBox (sampleEnv versionedLocal none) "box" "" false false)
        versionedSubmitted (uuidString 7)) ∧
    versionedSubmitted.ID = versionedLocal.ID :=
  ⟨⟨rfl, submits_of_prepare rfl⟩,
    (importBox_existingId (sampleEnv versionedLocal none) "box" "" "box" (uuidString 7)
      false false versionedLocal versionedSubmitted rfl (submits_of_prepare rfl)).1⟩

/-- C7 (counterexample): draft mode is off, `box.yaml` has no identity and no
remote box is found; the run reaches submission with a definition that
carries no version object. -/
theorem importBox_version_counterexample :
    (loadBox (sampleEnv plainLocal none) "box" []).result = .ok ("box", plainLocal) ∧
    Submits (importBox (sampleEnv plainLocal none) "box" "" false false) plainSubmitted "" ∧
    plainSubmitted.BoxVersion = none :=
  ⟨rfl, submits_of_prepare rfl, rfl⟩

/-- C7 (amended): in a run that reaches submission after `GetBox` returned an
existing box, and in which draft mode is off or `box.yaml` declares a version
object, the submitted definition carries a version object: the one of the
existing box when it has one, else a new one, which is a fresh `BoxVersion`
with the identity of the definition as its box reference and nothing taken
from the version object of `box.yaml`; in both cases with the description
"Version created using a kind of ebcli". -/
theorem importBox_version_of_existing (env : Env) (boxDir owner root eid id : String)
    (asDraft rawImport : Bool) (loc b cur : Box)
    (hl : (loadBox env boxDir []).result = .ok (root, loc))
    (hs : Submits (importBox env boxDir owner asDraft rawImport) b eid)
    (hg : Call.getBox id (some cur) ∈ (importBox env boxDir owner asDraft rawImport).trace)
    (hd : asDraft = false ∨ loc.BoxVersion.isSome = true) :
    ∃ v, b.BoxVersion = some v ∧
      v.Description = "Version created using a kind of ebcli" ∧
      (∀ cv, cur.BoxVersion = some cv →
        v = { cv with Description := "Version created using a kind of ebcli" }) ∧
      (cur.BoxVersion = none → v.Box = b.ID ∧ v.Box = loc.ID) ∧
      (cur.BoxVersion = none →
        v = { Box := loc.ID, Description := "Version created using a kind of ebcli",
              Number := 0 }) := by
  obtain ⟨c, -, hget, -, hm⟩ := submits_inv hs hl
  obtain ⟨-, hc⟩ := hget id _ hg
  subst hc
  obtain ⟨h1, -⟩ := hm _ rfl
  have hid : b.ID = loc.ID := by
    rw [h1, normalizeMembers_eq]
    simp only []
    rw [(reconcile_fields _ _ _ _ _).1, (forceVisibility_fields _ _).1]
  have hv : b.BoxVersion =
      (reconcile (forceVisibility rawImport loc) (some cur) owner asDraft rawImport).1.BoxVersion := by
    rw [h1, normalizeMembers_eq]
  rw [(reconcile_some _ _ _ _ _).2.2, (forceVisibility_fields _ _).2.2.2.1,
    (forceVisibility_fields _ _).1, if_pos hd] at hv
  refine ⟨_, hv, rfl, ?_, ?_, ?_⟩
  · intro cv hcv
    rw [hcv]
  · intro hcv
    rw [hcv, hid]
    exact ⟨rfl, rfl⟩
  · intro hcv
    rw [hcv]

/-- The version statement on the sample directory, in draft mode: `box.yaml`
declares version 2 of box 9, the existing box has no version object, and a
fresh version object of box 5 is submitted. -/
theorem importBox_version_of_existing_witness :
    ((loadBox (sampleEnv versionLocal (some ownerRemote)) "box" []).result
        = .ok ("box", versionLocal) ∧
      Submits (importBox (sampleEnv versionLocal (some ownerRemote)) "box" "" true false)
        (ownerSubmitted "bob") (uuidString 5) ∧
      Call.getBox (uuidString 5) (some ownerRemote)
        ∈ (importBox (sampleEnv versionLocal (some ownerRemote)) "box" "" true false).trace ∧
      (true = false ∨ versionLocal.BoxVersion.isSome = true)) ∧
    ∃ v, (ownerSubmitted "bob").BoxVersion = some v ∧
      v.Description = "Version created using a kind of ebcli" ∧
      (∀ cv, ownerRemote.BoxVersion = some cv →
        v = { cv with Description := "Version created using a kind of ebcli" }) ∧
      (ownerRemote.BoxVersion = none →
        v.Box = (ownerSubmitted "bob").ID ∧ v.Box = versionLocal.ID) ∧
      (ownerRemote.BoxVersion = none →
        v = { Box := versionLocal.ID, Description := "Version created using a kind of ebcli",
              Number := 0 }) :=
  have htrace : (importBox (sampleEnv versionLocal (some ownerRemote)) "box" "" true
      false).trace =
      [.stat "box" true, .stat "box/draft/box.yaml" false,
        .readFile "box/box.yaml" (some [98, 111, 120]),
        .getBox (uuidString 5) (some ownerRemote),
        .stat "box/events/configure" false, .stat "box/events/install" false,
        .stat "box/events/dispose" false, .stat "box/readme.md" false,
        .uploadBox (ownerSubmitted "bob") (uuidString 5) (some (ownerSubmitted "bob"))] :=
    rfl
  have hg : Call.getBox (uuidString 5) (some ownerRemote)
      ∈ (importBox (sampleEnv versionLocal (some ownerRemote)) "box" "" true false).trace := by
    rw [htrace]; simp
  ⟨⟨rfl, submits_of_prepare rfl, hg, Or.inr rfl⟩,
    importBox_version_of_existing (sampleEnv versionLocal (some ownerRemote)) "box" "" "box"
      (uuidString 5) (uuidString 5) true false versionLocal (ownerSubmitted "bob") ownerRemote
      rfl (submits_of_prepare rfl) hg (Or.inr rfl)⟩

/-- C6 (counterexample): `box.yaml` has a variable of type `File` with an
empty value; the run reaches submission, the submitted definition still has
that variable with its empty value, and no `UploadFile` call was made at all. -/
theorem importBox_file_variables_counterexample :
    Submits (importBox (sampleEnv emptyFileLocal none) "box" "" false false)
      emptyFileSubmitted "" ∧
    (⟨"cfg", "File", ""⟩ : Variable) ∈ emptyFileSubmitted.Variables ∧
    ∀ name content res, Call.uploadFile name content res
      ∉ (importBox (sampleEnv emptyFileLocal none) "box" "" false false).trace := by
  have htrace : (importBox (sampleEnv emptyFileLocal none) "box" "" false false).trace =
      [.stat "box" true, .stat "box/draft/box.yaml" false,
        .readFile "box/box.yaml" (some [98, 111, 120]),
        .stat "box/events/configure" false, .stat "box/events/install" false,
        .stat "box/events/dispose" false, .stat "box/readme.md" false,
        .uploadBox emptyFileSubmitted "" (some emptyFileSubmitted)] := rfl
  refine ⟨submits_of_prepare rfl, by simp [emptyFileSubmitted, emptyFileLocal], ?_⟩
  intro name content res
  rw [htrace]
  simp

/-- C6 (amended): in a run that reaches submission, every variable of type
`File` whose value in `box.yaml` is non-empty has as its submitted value the
string of the URL returned by the `UploadFile` call made for it, which is
called with the base name of the original path and the contents of that path
under the effective root; every other variable, a `File` variable with an
empty value included, is submitted unchanged and no call is made for it.  The
run is the steps before the loop (`beforeVariables`), then exactly the calls
`seg` of `VariableCalls` (one read and one upload for each variable of type
`File` with a value, in the order of the variables, and nothing else), then
the steps after the loop (`afterVariables`); so the loop makes exactly one
upload for each such variable.  For the value `data/config.json` the uploaded
name is `config.json`. -/
theorem importBox_file_variables (env : Env) (boxDir owner root eid : String)
    (asDraft rawImport : Bool) (loc b : Box)
    (hl : (loadBox env boxDir []).result = .ok (root, loc))
    (hs : Submits (importBox env boxDir owner asDraft rawImport) b eid) :
    List.Forall₂
      (VariableUploaded env root (importBox env boxDir owner asDraft rawImport).trace)
      loc.Variables b.Variables ∧
    pathBase "data/config.json" = "config.json" ∧
    ∃ bE eid0 pre seg post,
      beforeVariables env boxDir owner asDraft rawImport [] = ⟨pre, .ok (root, bE, eid0)⟩ ∧
      bE.Variables = loc.Variables ∧
      VariableCalls env root pre loc.Variables b.Variables seg ∧
      importBox env boxDir owner asDraft rawImport
        = afterVariables env root rawImport { bE with Variables := b.Variables } eid0
            (pre ++ seg) ∧
      (importBox env boxDir owner asDraft rawImport).trace = pre ++ seg ++ post ∧
      seg.countP Call.isUpload = loc.Variables.countP Variable.isFileToUpload := by
  obtain ⟨c0, -, -, -, hm0⟩ := submits_inv hs hl
  obtain ⟨-, -, -, -, -, h6, -⟩ := hm0 _ rfl
  refine ⟨h6, by decide, ?_⟩
  obtain ⟨tr, c, hp, ht, -⟩ := importBox_submits hs
  obtain ⟨root', loc', t1, bx, eid0, t2, art, h1, h2, h3, h4⟩ := prepareBox_ok hp
  have hl' := congrArg Run.result h1
  rw [hl] at hl'
  injection hl' with hl'
  injection hl' with hroot hloc
  subst hroot hloc
  obtain ⟨bE, t3, vars, t4, b2, t5, he, hv, hi, hr⟩ := uploadArtifacts_steps h3
  obtain ⟨-, hm⟩ := reconcileBox_ok h2
  obtain ⟨cur, tr1, l, -, -, -, hmm⟩ := mergeBox_ok hm
  obtain ⟨-, m2, -⟩ := hmm _ rfl
  have hbx : bx.Variables = loc.Variables := by
    rw [m2, normalizeMembers_eq]
    simp only []
    rw [(reconcile_fields _ _ _ _ _).2.2.2.1, (forceVisibility_fields _ _).2.2.2.2.1]
  have hbE : bE.Variables = loc.Variables := by
    rw [uploadEvents_ok he]
    exact hbx
  obtain ⟨s1, -⟩ := submitArgs_eq env art eid0
  rw [← h4] at s1
  simp only [] at s1
  have hbv : b.Variables = vars := by
    rw [s1, uploadReadme_ok hr, (uploadIcon_ok hi).1]
  rw [hbE] at hv
  obtain ⟨seg, hseg, hcalls⟩ := uploadVariables_calls _ _ _ _ _ _ hv
  obtain ⟨l3, hl3, -⟩ := (uploadIcon_sound env root _).run hi
  obtain ⟨l4, hl4, -⟩ := (uploadReadme_sound env root _).run hr
  have hbefore : beforeVariables env boxDir owner asDraft rawImport []
      = ⟨t3, .ok (root, bE, eid0)⟩ := by
    unfold beforeVariables
    rw [bind_run_intro h1]
    simp only []
    rw [bind_run_intro h2]
    simp only []
    rw [bind_run_intro he]
    rfl
  have hrun : importBox env boxDir owner asDraft rawImport
      = uploaderFn env rawImport b eid tr := by
    unfold importBox importBoxM
    rw [bind_run_intro hp]
  have hafter : afterVariables env root rawImport { bE with Variables := b.Variables } eid0
      (t3 ++ seg) = uploaderFn env rawImport b eid tr := by
    unfold afterVariables
    rw [hbv, ← hseg, bind_run_intro hi, bind_run_intro hr, ← h4]
  refine ⟨bE, eid0, t3, seg, l3 ++ l4 ++ [c], hbefore, hbE, ?_, ?_, ?_, ?_⟩
  · rw [hbv]
    exact hcalls
  · rw [hrun, hafter]
  · rw [ht, hl4, hl3, hseg]
    simp
  · exact hcalls.count_uploads.1

/-- The variables statement on the sample directory: `data/config.json` is
read once and uploaded once, as `config.json`, and the variable gets the
returned URL; the trace of the run is spelled out. -/
theorem importBox_file_variables_witness :
    ((loadBox (sampleEnv configLocal (some ownerRemote)) "box" []).result
        = .ok ("box", configLocal) ∧
      Submits (importBox (sampleEnv configLocal (some ownerRemote)) "box" "" true false)
        configSubmitted (uuidString 5)) ∧
    (List.Forall₂
        (VariableUploaded (sampleEnv configLocal (some ownerRemote)) "box"
          (importBox (sampleEnv configLocal (some ownerRemote)) "box" "" true false).trace)
        configLocal.Variables configSubmitted.Variables ∧
      pathBase "data/config.json" = "config.json" ∧
      ∃ bE eid0 pre seg post,
        beforeVariables (sampleEnv configLocal (some ownerRemote)) "box" "" true false []
          = ⟨pre, .ok ("box", bE, eid0)⟩ ∧
        bE.Variables = configLocal.Variables ∧
        VariableCalls (sampleEnv configLocal (some ownerRemote)) "box" pre
          configLocal.Variables configSubmitted.Variables seg ∧
        importBox (sampleEnv configLocal (some ownerRemote)) "box" "" true false
          = afterVariables (sampleEnv configLocal (some ownerRemote)) "box" false
              { bE with Variables := configSubmitted.Variables } eid0 (pre ++ seg) ∧
        (importBox (sampleEnv configLocal (some ownerRemote)) "box" "" true false).trace
          = pre ++ seg ++ post ∧
        seg.countP Call.isUpload = configLocal.Variables.countP Variable.isFileToUpload) ∧
    (importBox (sampleEnv configLocal (some ownerRemote)) "box" "" true false).trace =
      [.stat "box" true, .stat "box/draft/box.yaml" false,
        .readFile "box/box.yaml" (some [98, 111, 120]),
        .getBox (uuidString 5) (some ownerRemote),
        .stat "box/events/configure" false, .stat "box/events/install" false,
        .stat "box/events/dispose" false,
        .readFile "box/data/config.json" (some [123, 125]),
        .uploadFile "config.json" [123, 125]
          (some ⟨⟨"https", "blobs.example", "/config.json"⟩, 0⟩),
        .stat "box/readme.md" false,
        .uploadBox configSubmitted (uuidString 5) (some configSubmitted)] :=
  ⟨⟨rfl, submits_of_prepare rfl⟩,
    importBox_file_variables (sampleEnv configLocal (some ownerRemote)) "box" "" "box"
      (uuidString 5) true false configLocal configSubmitted rfl (submits_of_prepare rfl),
    rfl⟩

/-- C9 (counterexample): the icon metadata is present with an image path that
starts with `images/` and the flat icon field names the local file `icon.png`;
the run reaches submission, the submitted definition still has the local path
`icon.png`, and no `UploadFile` call was made. -/
theorem importBox_icon_counterexample :
    Submits (importBox (sampleEnv iconLocal none) "box" "" false false) iconSubmitted "" ∧
    iconLocal.Icon ≠ "" ∧ iconSubmitted.Icon = "icon.png" ∧
    ∀ name content res, Call.uploadFile name content res
      ∉ (importBox (sampleEnv iconLocal none) "box" "" false false).trace := by
  have htrace : (importBox (sampleEnv iconLocal none) "box" "" false false).trace =
      [.stat "box" true, .stat "box/draft/box.yaml" false,
        .readFile "box/box.yaml" (some [98, 111, 120]),
        .stat "box/events/configure" false, .stat "box/events/install" false,
        .stat "box/events/dispose" false, .stat "box/readme.md" false,
        .uploadBox iconSubmitted "" (some iconSubmitted)] := rfl
  refine ⟨submits_of_prepare rfl, by decide, rfl, ?_⟩
  intro name content res
  rw [htrace]
  simp

/-- C9 (amended): in a run that reaches submission, with `md` the icon
metadata and `icon` the flat icon field of `box.yaml`: if `md` is present with
a non-zero image whose path does not start with `images/`, that file is read
under the effective root and uploaded under its base name, the image becomes
the URL of the upload and `icon` is kept; if `md` is present with a non-zero
image whose path starts with `images/`, both fields are kept as they are; if
`md` is absent or its image is zero, and `icon` is non-empty, the file `icon`
is read and uploaded under its base name, `icon` becomes the string of the URL
of the upload and `md` is kept. -/
theorem importBox_icon (env : Env) (boxDir owner root eid : String)
    (asDraft rawImport : Bool) (loc b : Box)
    (hl : (loadBox env boxDir []).result = .ok (root, loc))
    (hs : Submits (importBox env boxDir owner asDraft rawImport) b eid) :
    (∀ im, loc.IconMetadata = some im → im.Image.IsZero = false →
      stringsHasPrefix im.Image.Path "images/" = false →
        b.Icon = loc.Icon ∧ ∃ content res,
          env.readFile (pathJoin [root, im.Image.Path]) = .ok content ∧
          Call.uploadFile (pathBase im.Image.Path) content (some res)
            ∈ (importBox env boxDir owner asDraft rawImport).trace ∧
          b.IconMetadata = some { im with Image := res.Url }) ∧
    (∀ im, loc.IconMetadata = some im → im.Image.IsZero = false →
      stringsHasPrefix im.Image.Path "images/" = true →
        b.Icon = loc.Icon ∧ b.IconMetadata = loc.IconMetadata) ∧
    ((loc.IconMetadata = none ∨ ∃ im, loc.IconMetadata = some im ∧ im.Image.IsZero = true) →
      loc.Icon ≠ "" →
        b.IconMetadata = loc.IconMetadata ∧ ∃ content res,
          env.readFile (pathJoin [root, loc.Icon]) = .ok content ∧
          Call.uploadFile (pathBase loc.Icon) content (some res)
            ∈ (importBox env boxDir owner asDraft rawImport).trace ∧
          b.Icon = res.Url.String) := by
  obtain ⟨c, -, -, -, hm⟩ := submits_inv hs hl
  obtain ⟨-, -, -, -, -, -, h7⟩ := hm _ rfl
  exact h7

/-- The icon statement on the sample directory: the flat icon `icon.png` is
uploaded and replaced by the returned URL. -/
theorem importBox_icon_witness :
    ((loadBox (sampleEnv flatIconLocal none) "box" []).result = .ok ("box", flatIconLocal) ∧
      Submits (importBox (sampleEnv flatIconLocal none) "box" "" false false)
        flatIconSubmitted "") ∧
    (flatIconLocal.Icon ≠ "" →
      flatIconSubmitted.IconMetadata = flatIconLocal.IconMetadata ∧ ∃ content res,
        (sampleEnv flatIconLocal none).readFile (pathJoin ["box", flatIconLocal.Icon])
          = .ok content ∧
        Call.uploadFile (pathBase flatIconLocal.Icon) content (some res)
          ∈ (importBox (sampleEnv flatIconLocal none) "box" "" false false).trace ∧
        flatIconSubmitted.Icon = res.Url.String) :=
  ⟨⟨rfl, submits_of_prepare rfl⟩,
    (importBox_icon (sampleEnv flatIconLocal none) "box" "" "box" "" false false
      flatIconLocal flatIconSubmitted rfl (submits_of_prepare rfl)).2.2 (Or.inl rfl)⟩

/-! ## The retry function -/

theorem retryFn_iff (maxRetries : Int) (att : Attempt) :
    retryFn maxRetries att = true ↔
      att.Index < maxRetries ∧ retryableOutcome att.Response = true := by
  unfold retryFn retryableOutcome
  by_cases hi : att.Index < maxRetries
  · cases hr : att.Response with
    | none => simp [hi]
    | some r => simp [hi]
  · simp [hi]

theorem retryCount_eq (maxRetries : Int) (outs : List (Option Response)) :
    ∀ idx : Nat, retryCount maxRetries idx outs =
      min (maxRetries.toNat - idx) (outs.takeWhile retryableOutcome).length := by
  induction outs with
  | nil => intro idx; simp [retryCount]
  | cons o rest ih =>
    intro idx
    unfold retryCount
    by_cases hf : retryFn maxRetries ⟨idx, o⟩ = true
    · rw [if_pos hf, ih]
      obtain ⟨h1, h2⟩ := (retryFn_iff _ _).1 hf
      simp only [] at h1 h2
      rw [List.takeWhile_cons_of_pos h2, List.length_cons]
      omega
    · rw [if_neg hf]
      by_cases h2 : retryableOutcome o = true
      · have h1 : ¬ ((idx : Int) < maxRetries) := fun h1 => hf ((retryFn_iff _ _).2 ⟨h1, h2⟩)
        have : maxRetries.toNat - idx = 0 := by omega
        rw [this]
        simp
      · rw [List.takeWhile_cons_of_neg h2]
        simp

/-- C8: for `maxRetries >= 0`, the function installed by `Retryer` answers
`true` (retry) exactly when the attempt index is below `maxRetries` and the
attempt has no response or a status code among 408, 500, 502, 503 and 504;
consulted after each attempt, from index 0 on, it therefore allows as many
retries as the smaller of `maxRetries` and the number of leading retryable
outcomes.  The outcomes 503, 503, 200 with `maxRetries = 3` give 2 retries and
end on the 200; outcomes that are all 503 (more than two of them) with
`maxRetries = 2` give 2 retries and end on a 503. -/
theorem retryFn_spec (maxRetries : Int) (hm : 0 ≤ maxRetries) :
    (∀ att : Attempt, retryFn maxRetries att = true ↔
      att.Index < maxRetries ∧
        (att.Response = none ∨
          ∃ r, att.Response = some r ∧ r.StatusCode ∈ [408, 500, 502, 503, 504])) ∧
    (∀ outs : List (Option Response),
      (retryCount maxRetries 0 outs : Int)
        = min maxRetries ((outs.takeWhile retryableOutcome).length : Int)) ∧
    (retryCount 3 0 [some ⟨503⟩, some ⟨503⟩, some ⟨200⟩] = 2 ∧
      finalOutcome 3 0 [some ⟨503⟩, some ⟨503⟩, some ⟨200⟩] = some (some ⟨200⟩)) ∧
    (∀ n, 2 < n →
      retryCount 2 0 (List.replicate n (some ⟨503⟩)) = 2 ∧
      finalOutcome 2 0 (List.replicate n (some ⟨503⟩)) = some (some ⟨503⟩)) := by
  refine ⟨?_, ?_, ⟨by decide, by decide⟩, ?_⟩
  · intro att
    rw [retryFn_iff]
    unfold retryableOutcome
    cases hr : att.Response with
    | none => simp
    | some r => simp
  · intro outs
    rw [retryCount_eq]
    omega
  · intro n hn
    obtain ⟨k, rfl⟩ : ∃ k, n = k + 3 := ⟨n - 3, by omega⟩
    constructor
    · simp [List.replicate_succ, retryCount, retryFn]
    · simp [List.replicate_succ, finalOutcome, retryFn]

/-- The retry count for `maxRetries = 3` and the outcomes 503, no response,
404, 503. -/
theorem retryFn_spec_witness :
    (0 : Int) ≤ 3 ∧
      (retryCount 3 0 [some ⟨503⟩, none, some ⟨404⟩, some ⟨503⟩] : Int)
        = min 3 (([some ⟨503⟩, none, some ⟨404⟩, some ⟨503⟩].takeWhile
            retryableOutcome).length : Int) :=
  ⟨by decide, (retryFn_spec 3 (by decide)).2.1 _⟩

end Clccam
